import Mathlib

/-!
Verification of the package release orchestration pipeline implemented in
`bin/plugin/commands/packages.js`.

The JavaScript code is shallowly embedded: every step function becomes a pure
Lean function that returns the list of external effects it performs (git
operations, file writes, log lines, confirmation prompts, npm commands)
together with its result, where a result of `Except.error m` models the abort
path taken when an interactive confirmation is declined.  The on-disk state
touched by `updatePackages` (per-package `CHANGELOG.md` contents and
`package.json` version fields) is modelled explicitly by `RepoState`, so that
running the updater twice can be expressed.

Helpers that live outside the available source tree
(`calculateVersionBumpFromChangelog` and `findReleaseBranchName` from
`bin/plugin/commands/common.js`, `askForConfirmation` / `runStep` from
`bin/plugin/lib/utils.js`) are modelled from the specification; each such
definition carries a doc comment saying so.
-/

/-- Release type names, from the `ReleaseType` typedef in `packages.js`
(`'latest' | 'bugfix' | 'patch' | 'next'`). -/
inductive ReleaseType where
  | latest
  | bugfix
  | patch
  | next
deriving DecidableEq, Repr

/-- Semantic-versioning bump labels, from the `SemVer` typedef in
`packages.js` (`'major' | 'minor' | 'patch'`). -/
inductive SemVer where
  | major
  | minor
  | patch
deriving DecidableEq, Repr

/-- The ordered magnitude of a bump level: `patch < minor < major`. -/
def SemVer.rank : SemVer → Nat
  | .patch => 0
  | .minor => 1
  | .major => 2

/-- The larger of two bump levels under the `patch < minor < major` order. -/
def bumpMax (a b : SemVer) : SemVer :=
  if a.rank < b.rank then b else a

/-- The string name of a bump level, as interpolated into the `lerna`
command lines of `publishPackagesToNpm`. -/
def SemVer.name : SemVer → String
  | .major => "major"
  | .minor => "minor"
  | .patch => "patch"

/-- A parsed semantic version, the shape the `semver` npm package gives to the
`version` field read from a `package.json` manifest. -/
structure Version where
  major : Nat
  minor : Nat
  patch : Nat
  prerelease : List String
deriving DecidableEq, Repr

/-- String form of a version, as produced by the `semver` npm package
(`major.minor.patch`, with `-` and the dot-joined prerelease ids appended when
a prerelease tag is present). -/
def Version.render (v : Version) : String :=
  Nat.repr v.major ++ "." ++ Nat.repr v.minor ++ "." ++ Nat.repr v.patch ++
    (if v.prerelease = [] then "" else "-" ++ String.intercalate "." v.prerelease)

/-- `semver.inc` from the `semver` npm package (imported as `semverInc` in
`packages.js`), restricted to the three release arguments the file uses.
A version that is a prerelease of the next patch/minor/major is completed to
that version rather than incremented past it, exactly as `semver` does. -/
def semverInc (v : Version) (bump : SemVer) : Version :=
  match bump with
  | .major =>
      { major := if v.minor ≠ 0 ∨ v.patch ≠ 0 ∨ v.prerelease = [] then v.major + 1 else v.major
        minor := 0, patch := 0, prerelease := [] }
  | .minor =>
      { major := v.major
        minor := if v.patch ≠ 0 ∨ v.prerelease = [] then v.minor + 1 else v.minor
        patch := 0, prerelease := [] }
  | .patch =>
      { major := v.major, minor := v.minor
        patch := if v.prerelease = [] then v.patch + 1 else v.patch
        prerelease := [] }

/-! ### Character-list utilities

JavaScript strings are sequences of characters; the changelog manipulations of
`updatePackages` (`readline` line splitting and `String.prototype.replace`
with a string pattern, which replaces the first occurrence only) are modelled
over `List Char`. -/

/-- Split a character list at every occurrence of `sep`.  Models how
`readline` cuts a file into lines at `'\n'`; always returns at least one
(possibly empty) piece. -/
def splitOnChar (sep : Char) : List Char → List (List Char)
  | [] => [[]]
  | c :: cs =>
    match splitOnChar sep cs with
    | [] => [[]]
    | l :: ls => if c = sep then [] :: l :: ls else (c :: l) :: ls

/-- Join pieces back with `'\n'`, the inverse of `splitOnChar '\n'` for
newline-free pieces. -/
def joinLines : List (List Char) → List Char
  | [] => []
  | [l] => l
  | l :: ls => l ++ '\n' :: joinLines ls

/-- Replace the first (leftmost) occurrence of `pat` by `repl`, the behaviour
of JavaScript `String.prototype.replace` when called with a string pattern.
If `pat` does not occur the list is returned unchanged. -/
def replaceFirstAux (pat repl : List Char) : List Char → List Char
  | [] => []
  | c :: cs =>
    if pat.isPrefixOf (c :: cs) then repl ++ (c :: cs).drop pat.length
    else c :: replaceFirstAux pat repl cs

/-- `content.replace(pat, repl)` for JavaScript strings (string pattern:
first occurrence only). -/
def replaceFirst (s pat repl : String) : String :=
  String.mk (replaceFirstAux pat.data repl.data s.data)

/-- The number of positions at which `pat` occurs (starts) in the text. -/
def countOccAux (pat : List Char) : List Char → Nat
  | [] => 0
  | c :: cs => (if pat.isPrefixOf (c :: cs) then 1 else 0) + countOccAux pat cs

/-- Number of occurrences of the substring `pat` in `s`. -/
def countSubstr (s pat : String) : Nat :=
  countOccAux pat.data s.data

/-- The lines of a file's text, as produced by the `readline` interface used
in `updatePackages`. -/
def linesOfString (s : String) : List String :=
  (splitOnChar '\n' s.data).map String.mk

/-! ### The changelog bump calculator (spec-modelled) -/

/-- The characters of the changelog marker line `## Unreleased`. -/
def marker : List Char := "## Unreleased".data

/-- A line containing only whitespace, i.e. one whose JavaScript `trim()` is
empty. -/
def isBlank (l : List Char) : Bool :=
  l.all fun c => c = ' ' ∨ c = '\t' ∨ c = '\r'

/-- Modelled from the spec: the bump level associated to a changelog
subsection heading.  The heading taxonomy of
`calculateVersionBumpFromChangelog` (defined in
`bin/plugin/commands/common.js`, which is not part of the available source) is
left open by the design notes (§9); following the documented example mapping,
"Breaking Change" headings are major, "New Feature"/"Enhancement" headings are
minor, and anything else (e.g. "Bug Fixes") is patch. -/
def headingLevel (l : List Char) : SemVer :=
  if "Breaking Change".data <:+: l then .major
  else if "New Feature".data <:+: l ∨ "Enhancement".data <:+: l then .minor
  else .patch

/-- Everything after the first line that starts with `## Unreleased`; empty
when no such line exists (a changelog without the heading is treated like one
with no pending entries). -/
def dropToUnreleased : List (List Char) → List (List Char)
  | [] => []
  | l :: ls => if marker.isPrefixOf l then ls else dropToUnreleased ls

/-- The lines of the "Unreleased" section: everything up to the next `## `
heading. -/
def takeSection : List (List Char) → List (List Char)
  | [] => []
  | l :: ls => if "## ".data.isPrefixOf l then [] else l :: takeSection ls

/-- The bump levels of the actionable entries of a section, each entry
classified by the `### ` subsection heading above it. -/
def sectionEntryBumps (cur : SemVer) : List (List Char) → List SemVer
  | [] => []
  | l :: ls =>
    if "### ".data.isPrefixOf l then sectionEntryBumps (headingLevel l) ls
    else if isBlank l then sectionEntryBumps cur ls
    else cur :: sectionEntryBumps cur ls

/-- Modelled from the spec: `calculateVersionBumpFromChangelog` is defined in
`bin/plugin/commands/common.js`, which is not included in the available
source; only its call site in `updatePackages` is.  Per §4.1 and §8 of the
design: the "Unreleased" section of the changelog lines is located (a missing
heading behaves like an empty section), its entry lines are classified by
subsection heading, and the raw recommendation is the maximum of the entries'
levels and the configured minimum — `null` (here `none`) when the section has
no actionable entries. -/
def calculateVersionBumpFromChangelog (lines : List String)
    (minimumVersionBump : SemVer) : Option SemVer :=
  let entries := sectionEntryBumps .patch (takeSection (dropToUnreleased (lines.map String.data)))
  if entries.isEmpty then none else some (entries.foldl bumpMax minimumVersionBump)

/-! ### Pipeline data model -/

/-- The `WPPackagesConfig` object assembled by the three entry points and
threaded through every step.  `releaseBranch` is a field only because
`runPushGitChangesStep` destructures it from the config object; the source
never assigns it, so it stays `none` (JavaScript `undefined`). -/
structure WPPackagesConfig where
  gitWorkingDirectoryPath : String
  interactive : Bool
  minimumVersionBump : SemVer
  releaseType : ReleaseType
  releaseBranch : Option String := none
deriving DecidableEq, Repr

/-- A public package on disk: its directory name under `packages/`, the text
of its `CHANGELOG.md`, and the `version` and `private` fields of its sibling
`package.json`. -/
structure PackageOnDisk where
  name : String
  changelog : String
  version : Version
  isPrivate : Bool
deriving DecidableEq, Repr

/-- The repository state the pipeline reads and writes: the packages found by
the `packages/*/CHANGELOG.md` glob, the dependency names of the top-level
`package.json` (the production packages), and the plugin release branch name
recorded in that manifest (read by `findReleaseBranchName`, which lives in
`common.js` outside the available source and is modelled from the spec as
returning that recorded name). -/
structure RepoState where
  packages : List PackageOnDisk
  dependencies : List String
  pluginReleaseBranch : String
deriving DecidableEq, Repr

/-- The environment of external answers a run consumes: the user's reply to
each confirmation prompt, the hash produced by `git.commit`, the hash
returned by `git.getLastCommitHash`, the directory produced by the clone
step, and the process working directory. -/
structure Env where
  confirm : String → Bool
  commitHash : String
  lastCommitHash : String
  cloneDir : String
  cwd : String

/-- One observable external action of the pipeline. -/
inductive Effect where
  | checkoutRemoteBranch (dir branch : String)
  | fetch (dir : String) (opts : List String)
  | replaceContentFromRemoteBranch (dir branch : String)
  | commit (dir msg : String) (paths : Option (List String))
  | pushBranchToOrigin (dir : String) (branch : Option String)
  | resetLocalBranchAgainstOrigin (dir branch : String)
  | cherrypickCommitIntoBranch (dir hash : String)
  | getLastCommitHash (dir : String)
  | askForConfirmation (msg : String)
  | logMsg (msg : String)
  | writeChangelog (path content : String)
  | writePackageJson (path version : String)
  | npmCommand (cmd : String)
  | cloneRepo
  | cleanLocalFolders (folders : List String)
deriving DecidableEq, Repr

/-- Modelled from the spec: `askForConfirmation` (from
`bin/plugin/lib/utils.js`, not part of the available source) prompts the user
and raises the abort path with the given abort message when the confirmation
is declined.  Every call site in `packages.js` guards it with
`if ( interactive )`; the guard is part of this helper so that each gate
reads as in the source. -/
def confirmGate (interactive : Bool) (env : Env) (msg abortMessage : String) :
    List Effect × Except String Unit :=
  if interactive then
    if env.confirm msg then ([.askForConfirmation msg], .ok ())
    else ([.askForConfirmation msg], .error abortMessage)
  else ([], .ok ())

/-! ### `runWordPressReleaseBranchSyncStep` -/

/-- The confirmation prompt of the branch sync step. -/
def syncPrompt (pluginReleaseBranch : String) : String :=
  "The branch is ready for sync with the latest plugin release changes applied to \"" ++
    pluginReleaseBranch ++ "\". Proceed?"

/-- The message of the sync merge commit. -/
def mergeCommitMsg (pluginReleaseBranch : String) : String :=
  "Merge changes published in the Gutenberg plugin \"" ++ pluginReleaseBranch ++ "\" branch"

/-- `runWordPressReleaseBranchSyncStep` from `packages.js`: check out `trunk`,
read the plugin release branch name from the manifest, check out the
WordPress release branch (`wp/next` for a `next` release, `wp/trunk`
otherwise), fetch, and — for `latest` and `next` releases — overwrite the
branch content from the plugin release branch and commit the overwrite,
behind an interactive confirmation gate.  Returns the release branch name. -/
def runWordPressReleaseBranchSyncStep (c : WPPackagesConfig) (repo : RepoState)
    (env : Env) (abortMessage : String) : List Effect × Except String String :=
  let wordpressReleaseBranch := if c.releaseType = .next then "wp/next" else "wp/trunk"
  let dir := c.gitWorkingDirectoryPath
  let pluginReleaseBranch := repo.pluginReleaseBranch
  let base : List Effect :=
    [ .checkoutRemoteBranch dir "trunk",
      .checkoutRemoteBranch dir wordpressReleaseBranch,
      .fetch dir ["--depth=100"],
      .logMsg (">> The local release branch " ++ wordpressReleaseBranch ++
        " has been successfully checked out.") ]
  if c.releaseType = .latest ∨ c.releaseType = .next then
    match confirmGate c.interactive env (syncPrompt pluginReleaseBranch) abortMessage with
    | (ce, .error e) => (base ++ ce, .error e)
    | (ce, .ok _) =>
        (base ++ ce ++
          [ .replaceContentFromRemoteBranch dir pluginReleaseBranch,
            .commit dir (mergeCommitMsg pluginReleaseBranch) none,
            .logMsg (">> The local WordPress release branch " ++ wordpressReleaseBranch ++
              " has been successfully synced.") ],
          .ok wordpressReleaseBranch)
  else (base, .ok wordpressReleaseBranch)

/-! ### `updatePackages` -/

/-- The path of a package's changelog inside the working directory, as built
by the `packages/*/CHANGELOG.md` glob. -/
def changelogPathOf (dir name : String) : String :=
  dir ++ "/packages/" ++ name ++ "/CHANGELOG.md"

/-- The path of a package's manifest
(`changelogPath.replace('CHANGELOG.md', 'package.json')`). -/
def packageJSONPathOf (dir name : String) : String :=
  dir ++ "/packages/" ++ name ++ "/package.json"

/-- The per-package record assembled inside `updatePackages`. -/
structure ProcessedPackage where
  changelogPath : String
  packageJSONPath : String
  packageName : String
  nextVersion : Option Version
  version : Version
deriving DecidableEq, Repr

/-- The body of the `changelogFilesPublicPackages.map` callback of
`updatePackages`: read the changelog lines, compute the raw bump, enforce the
production-package minimum bump when the raw bump is null, the release is not
`next`, the configured minimum is not `patch` and the package is a top-level
dependency, and derive `nextVersion` by `semverInc`. -/
def processPackage (dir : String) (minimumVersionBump : SemVer)
    (releaseType : ReleaseType) (productionPackageNames : List String)
    (p : PackageOnDisk) : ProcessedPackage :=
  let lines := linesOfString p.changelog
  let versionBump := calculateVersionBumpFromChangelog lines minimumVersionBump
  let packageName := "@wordpress/" ++ p.name
  let versionBump :=
    if versionBump = none ∧ releaseType ≠ .next ∧ minimumVersionBump ≠ .patch ∧
        productionPackageNames.contains packageName
    then some minimumVersionBump else versionBump
  { changelogPath := changelogPathOf dir p.name
    packageJSONPath := packageJSONPathOf dir p.name
    packageName := packageName
    nextVersion := versionBump.map (semverInc p.version)
    version := p.version }

/-- The records `updatePackages` builds: one per non-private package
(`pkg.private !== true`). -/
def processedPackages (c : WPPackagesConfig) (repo : RepoState) : List ProcessedPackage :=
  (repo.packages.filter fun p => !p.isPrivate).map
    (processPackage c.gitWorkingDirectoryPath c.minimumVersionBump c.releaseType
      repo.dependencies)

/-- The records whose `nextVersion` is non-null, i.e. the packages whose
files are rewritten and committed. -/
def packagesToUpdate (c : WPPackagesConfig) (repo : RepoState) : List ProcessedPackage :=
  (processedPackages c repo).filter fun r => r.nextVersion.isSome

/-- The log line of the empty-update branch of `updatePackages`. -/
def noChangesMsg : String := ">> No changes in CHANGELOG files detected."

/-- The version string placed in the new changelog heading: the plain next
version, with `-next.0` appended for a `next` release. -/
def headingVersion (releaseType : ReleaseType) (nv : Version) : String :=
  if releaseType = .next then nv.render ++ "-next.0" else nv.render

/-- The changelog rewrite of `updatePackages`:
`content.replace('## Unreleased', "## Unreleased\n\n## <version> (<date>)")`,
which inserts a dated version heading just below the first `## Unreleased`
marker, leaving the marker itself (and hence a fresh empty section) above. -/
def updatedChangelog (releaseType : ReleaseType) (publishDate : String)
    (nv : Version) (content : String) : String :=
  replaceFirst content "## Unreleased"
    ("## Unreleased\n\n## " ++ headingVersion releaseType nv ++ " (" ++ publishDate ++ ")")

/-- The confirmation prompt before the changelog commit. -/
def commitPrompt : String :=
  "All corresponding files were updated. Commit the changes?"

/-- The changelog text currently on disk at `path` (the `fs.readFile` of the
update loop re-reads each file by its glob path). -/
def readChangelog (dir : String) (repo : RepoState) (path : String) : String :=
  match repo.packages.find? (fun p => changelogPathOf dir p.name = path) with
  | some p => p.changelog
  | none => ""

/-- The write and log effects of the update loop for one record. -/
def updateEffectsFor (dir : String) (releaseType : ReleaseType) (publishDate : String)
    (repo : RepoState) (r : ProcessedPackage) : List Effect :=
  match r.nextVersion with
  | some nv =>
      [ .writeChangelog r.changelogPath
          (updatedChangelog releaseType publishDate nv (readChangelog dir repo r.changelogPath)),
        .writePackageJson r.packageJSONPath (nv.render ++ "-prerelease"),
        .logMsg ("   - " ++ r.packageName ++ ": " ++ r.version.render ++ " -> " ++
          headingVersion releaseType nv) ]
  | none => []

/-- The new on-disk package list after the update loop: a package whose
changelog path carries an updated record gets the rewritten changelog and the
manifest version `nextVersion`-`prerelease` (the string the `semver` package
parses back to `nextVersion` with prerelease tag `prerelease`). -/
def applyUpdates (dir : String) (releaseType : ReleaseType) (publishDate : String)
    (toUpdate : List ProcessedPackage) (pkgs : List PackageOnDisk) : List PackageOnDisk :=
  pkgs.map fun q =>
    match toUpdate.find? (fun r => r.changelogPath = changelogPathOf dir q.name) with
    | some r =>
        match r.nextVersion with
        | some nv =>
            { q with changelog := updatedChangelog releaseType publishDate nv q.changelog
                     version := { nv with prerelease := ["prerelease"] } }
        | none => q
    | none => q

/-- The log line announcing the recommended bumps. -/
def recommendMsg : String :=
  ">> Recommended version bumps based on the changes detected in CHANGELOG files:"

/-- The write/log effects of the whole update loop. -/
def updateLoopEffects (c : WPPackagesConfig) (repo : RepoState) (publishDate : String) :
    List Effect :=
  ((packagesToUpdate c repo).map
    (updateEffectsFor c.gitWorkingDirectoryPath c.releaseType publishDate repo)).flatten

/-- The repository state after the update loop has rewritten every changelog
and manifest. -/
def repoAfterUpdate (c : WPPackagesConfig) (repo : RepoState) (publishDate : String) :
    RepoState :=
  { repo with
    packages := applyUpdates c.gitWorkingDirectoryPath c.releaseType publishDate
      (packagesToUpdate c repo) repo.packages }

/-- `updatePackages` from `packages.js`.  Returns the new repository state,
the effect trace, and the optional commit hash (`none` models the bare
`return` of the "no changes" branch; `Except.error` models the abort raised
by a declined commit confirmation). -/
def updatePackages (c : WPPackagesConfig) (repo : RepoState) (env : Env)
    (publishDate : String) (abortMessage : String) :
    RepoState × List Effect × Except String (Option String) :=
  if packagesToUpdate c repo = [] then (repo, [.logMsg noChangesMsg], .ok none)
  else
    match confirmGate c.interactive env commitPrompt abortMessage with
    | (ce, .error e) =>
        (repoAfterUpdate c repo publishDate,
          Effect.logMsg recommendMsg :: updateLoopEffects c repo publishDate ++ ce,
          .error e)
    | (ce, .ok _) =>
        (repoAfterUpdate c repo publishDate,
          Effect.logMsg recommendMsg :: updateLoopEffects c repo publishDate ++ ce ++
            [ .commit c.gitWorkingDirectoryPath "Update changelog files" (some ["./*"]),
              .logMsg ">> Changelog files changes have been committed successfully." ],
          .ok (some env.commitHash))

/-! ### `runPushGitChangesStep`, `publishPackagesToNpm`, `backportCommitsToTrunk` -/

/-- The confirmation prompt before the push. -/
def pushPrompt : String :=
  "The release branch is going to be pushed to the remote repository. Continue?"

/-- `runPushGitChangesStep` from `packages.js`: an interactive gate, then
`git.pushBranchToOrigin( dir, releaseBranch )` where `releaseBranch` is
destructured from the config object. -/
def runPushGitChangesStep (c : WPPackagesConfig) (env : Env) (abortMessage : String) :
    List Effect × Except String Unit :=
  match confirmGate c.interactive env pushPrompt abortMessage with
  | (ce, .error e) => (ce, .error e)
  | (ce, .ok _) =>
      (ce ++ [.pushBranchToOrigin c.gitWorkingDirectoryPath c.releaseBranch], .ok ())

/-- `publishPackagesToNpm` from `packages.js`: `npm ci`, then the
release-type-specific `lerna` / npm invocations, returning the last commit
hash of the working directory. -/
def publishPackagesToNpm (c : WPPackagesConfig) (env : Env) : List Effect × String :=
  let dir := c.gitWorkingDirectoryPath
  let head : List Effect := [.logMsg ">> Installing npm packages.", .npmCommand "npm ci"]
  let mid : List Effect :=
    if c.releaseType = .next then
      [ .logMsg ">> Bumping version of public packages changed since the last release.",
        .getLastCommitHash dir,
        .npmCommand ("npx lerna version pre" ++ c.minimumVersionBump.name ++
          " --preid next." ++ env.lastCommitHash ++ " --no-private"),
        .logMsg ">> Publishing modified packages to npm.",
        .npmCommand "npx lerna publish from-package --dist-tag next" ]
    else if c.releaseType = .bugfix then
      [ .logMsg ">> Publishing modified packages to npm.",
        .npmCommand "npm run publish:latest" ]
    else
      [ .logMsg ">> Bumping version of public packages changed since the last release.",
        .npmCommand ("npx lerna version " ++ c.minimumVersionBump.name ++ " --no-private"),
        .logMsg ">> Publishing modified packages to npm.",
        .npmCommand "npx lerna publish from-package" ]
  (head ++ mid ++ [.getLastCommitHash dir], env.lastCommitHash)

/-- `backportCommitsToTrunk` from `packages.js`: a no-op unless the release
type is `latest` or `bugfix` and the commit list is non-empty; otherwise
reset local `trunk` against origin, cherry-pick the commits in order, and
push `trunk`. -/
def backportCommitsToTrunk (c : WPPackagesConfig) (commits : List String) : List Effect :=
  if ¬ (c.releaseType = .latest ∨ c.releaseType = .bugfix) ∨ commits = [] then []
  else
    [ .logMsg ">> Backporting commits.",
      .resetLocalBranchAgainstOrigin c.gitWorkingDirectoryPath "trunk" ]
      ++ commits.map (Effect.cherrypickCommitIntoBranch c.gitWorkingDirectoryPath)
      ++ [.pushBranchToOrigin c.gitWorkingDirectoryPath (some "trunk")]

/-! ### `prepareForPackageRelease` -/

/-- `[ commitHashChangelogUpdates, commitHashNpmPublish ].filter( Boolean )`:
drop `null`/`undefined` and (vacuously for git hashes) empty strings. -/
def filterBoolean (l : List (Option String)) : List String :=
  (l.filterMap id).filter fun s => s ≠ ""

/-- `prepareForPackageRelease` from `packages.js`: the orchestrator that runs
clone (interactive only), branch sync, changelog update, push, npm publish,
backport, and cleanup in sequence, stopping at the first abort. -/
def prepareForPackageRelease (c : WPPackagesConfig) (repo : RepoState) (env : Env)
    (publishDate : String) : RepoState × List Effect × Except String Unit :=
  let abortMessage := "Aborting!"
  -- `askForConfirmation( 'Ready to go?' )` uses the helper's default abort
  -- message; clone only happens interactively, otherwise `process.cwd()`.
  let (e₀, r₀, c₁, temporaryFolders) :
      List Effect × Except String Unit × WPPackagesConfig × List String :=
    if c.interactive then
      match confirmGate true env "Ready to go?" "Aborting" with
      | (ce, .error e) => (ce, .error e, c, [])
      | (ce, .ok _) =>
          (ce ++ [.cloneRepo], .ok (),
            { c with gitWorkingDirectoryPath := env.cloneDir }, [env.cloneDir])
    else ([], .ok (), { c with gitWorkingDirectoryPath := env.cwd }, [])
  match r₀ with
  | .error e => (repo, e₀, .error e)
  | .ok _ =>
    match runWordPressReleaseBranchSyncStep c₁ repo env abortMessage with
    | (e₁, .error e) => (repo, e₀ ++ e₁, .error e)
    | (e₁, .ok releaseBranch) =>
      match updatePackages c₁ repo env publishDate abortMessage with
      | (repo₁, e₂, .error e) => (repo₁, e₀ ++ e₁ ++ e₂, .error e)
      | (repo₁, e₂, .ok commitHashChangelogUpdates) =>
        match runPushGitChangesStep c₁ env
            ("Aborting! Make sure to push changes applied to WordPress release branch \"" ++
              releaseBranch ++ "\" manually.") with
        | (e₃, .error e) => (repo₁, e₀ ++ e₁ ++ e₂ ++ e₃, .error e)
        | (e₃, .ok _) =>
          let (e₄, commitHashNpmPublish) := publishPackagesToNpm c₁ env
          let e₅ := backportCommitsToTrunk c₁
            (filterBoolean [commitHashChangelogUpdates, some commitHashNpmPublish])
          (repo₁,
            e₀ ++ e₁ ++ e₂ ++ e₃ ++ e₄ ++ e₅ ++ [.cleanLocalFolders temporaryFolders],
            .ok ())

/-! ## Observation helpers and concrete fixtures -/

/-- Is this effect a branch-content replacement? -/
def isContentReplacement : Effect → Bool
  | .replaceContentFromRemoteBranch _ _ => true
  | _ => false

/-- Is this effect a git commit? -/
def isCommitEffect : Effect → Bool
  | .commit _ _ _ => true
  | _ => false

/-- Is this effect a push? -/
def isPushEffect : Effect → Bool
  | .pushBranchToOrigin _ _ => true
  | _ => false

/-- Is this effect the `npm ci` invocation that opens the publish stage? -/
def isNpmCiEffect : Effect → Bool
  | .npmCommand "npm ci" => true
  | _ => false

/-- Is this effect a confirmation prompt? -/
def isConfirmEffect : Effect → Bool
  | .askForConfirmation _ => true
  | _ => false

/-- How many confirmation prompts a trace contains. -/
def countConfirms (tr : List Effect) : Nat :=
  (tr.filter isConfirmEffect).length

/-- An environment whose user accepts every confirmation. -/
def envT : Env :=
  { confirm := fun _ => true, commitHash := "c0ffee", lastCommitHash := "abc123",
    cloneDir := "/tmp/clone", cwd := "/cwd" }

/-- A sample changelog with one pending bug-fix entry. -/
def sampleChangelog : String :=
  "# Changelog\n\n## Unreleased\n\n### Bug Fixes\n\n- Fix thing.\n\n## 1.2.3 (2020-01-01)\n"

/-- A public `data` package with one pending bug-fix entry. -/
def pkgData : PackageOnDisk :=
  { name := "data", changelog := sampleChangelog,
    version := ⟨1, 2, 3, []⟩, isPrivate := false }

/-- A repository with a single public production package with pending
changes. -/
def repoData : RepoState :=
  { packages := [pkgData],
    dependencies := ["@wordpress/data"], pluginReleaseBranch := "release/10.0" }

/-- A repository with no packages at all. -/
def repoEmpty : RepoState :=
  { packages := [], dependencies := [], pluginReleaseBranch := "release/10.0" }

/-- A non-interactive stable-release configuration with minimum bump
`minor`. -/
def cfgLatestMinor : WPPackagesConfig :=
  { gitWorkingDirectoryPath := "/w", interactive := false,
    minimumVersionBump := .minor, releaseType := .latest }

/-- A public package whose "Unreleased" section is empty. -/
def pkgQuiet : PackageOnDisk :=
  { name := "quiet", changelog := "## Unreleased\n\n## 1.0.0 (2020-01-01)\n",
    version := ⟨1, 0, 0, []⟩, isPrivate := false }

/-- A repository whose top-level manifest lists `@wordpress/quiet` as a
production dependency. -/
def repoQuiet : RepoState :=
  { packages := [pkgQuiet], dependencies := ["@wordpress/quiet"],
    pluginReleaseBranch := "release/10.0" }

/-- A repository holding a private package (with a pending breaking change)
next to a public one. -/
def repoMixed : RepoState :=
  { packages := [ { name := "blocks",
                    changelog := "## Unreleased\n\n### Breaking Changes\n\n- Gone.\n",
                    version := ⟨2, 0, 0, []⟩, isPrivate := true },
                  { name := "data", changelog := sampleChangelog,
                    version := ⟨1, 2, 3, []⟩, isPrivate := false } ],
    dependencies := ["@wordpress/data"], pluginReleaseBranch := "release/10.0" }

/-- An interactive bugfix-release configuration. -/
def cfgBugfixInteractive : WPPackagesConfig :=
  { gitWorkingDirectoryPath := "/w", interactive := true,
    minimumVersionBump := .minor, releaseType := .bugfix }

/-- An interactive stable-release configuration. -/
def cfgLatestInteractive : WPPackagesConfig :=
  { gitWorkingDirectoryPath := "/w", interactive := true,
    minimumVersionBump := .minor, releaseType := .latest }

/-- An environment whose user declines every confirmation. -/
def envF : Env :=
  { confirm := fun _ => false, commitHash := "c0ffee", lastCommitHash := "abc123",
    cloneDir := "/tmp/clone", cwd := "/cwd" }

/-- Well-formedness of a changelog for the idempotence and rewrite analysis:
scanning the lines for the first one that contains `## Unreleased` at all, the
scan must land on a line that is exactly the `## Unreleased` marker.  (A
changelog whose first occurrence of the marker text sits in the middle of an
unrelated line is rewritten there by `String.replace`, away from the heading
the bump calculator reads.) -/
def goodChangelog (content : String) : Bool :=
  match (splitOnChar '\n' content.data).dropWhile (fun l => !decide (marker <:+: l)) with
  | l :: _ => l = marker
  | [] => false

/-- The characters of the heading line `## <version> (<date>)` that the
changelog rewrite inserts. -/
def insChars (rt : ReleaseType) (d : String) (nv : Version) : List Char :=
  ("## " ++ headingVersion rt nv ++ " (" ++ d ++ ")").data

/-- The characters that follow the marker line in a re-joined line list:
nothing when the marker was the last line, otherwise a newline and the
remaining lines. -/
def sepRest (rest : List (List Char)) : List Char :=
  if rest = [] then [] else '\n' :: joinLines rest

/-- C4: `backportCommitsToTrunk` performs zero version-control operations when
the release type is outside `{latest, bugfix}` (in particular for `next`) or
the commit list is empty; otherwise it resets local `trunk` against origin,
cherry-picks the supplied commits in list order, and pushes `trunk`. -/
theorem C4_backport_skip_or_replay (c : WPPackagesConfig) (commits : List String) :
    ((¬ (c.releaseType = .latest ∨ c.releaseType = .bugfix) ∨ commits = []) →
      backportCommitsToTrunk c commits = []) ∧
    ((c.releaseType = .latest ∨ c.releaseType = .bugfix) → commits ≠ [] →
      backportCommitsToTrunk c commits =
        [ .logMsg ">> Backporting commits.",
          .resetLocalBranchAgainstOrigin c.gitWorkingDirectoryPath "trunk" ]
          ++ commits.map (Effect.cherrypickCommitIntoBranch c.gitWorkingDirectoryPath)
          ++ [.pushBranchToOrigin c.gitWorkingDirectoryPath (some "trunk")]) := by
  constructor
  · intro h
    unfold backportCommitsToTrunk
    rw [if_pos h]
  · intro h1 h2
    unfold backportCommitsToTrunk
    rw [if_neg]
    push_neg
    exact ⟨h1, h2⟩

/-- Witness for C4 at concrete inputs: a `next` release backports nothing; a
`latest` release replays the two commits in order and pushes. -/
theorem C4_witness :
    backportCommitsToTrunk { cfgLatestMinor with releaseType := .next } ["a1", "b2"] = [] ∧
    backportCommitsToTrunk cfgLatestMinor ["a1", "b2"] =
      [ .logMsg ">> Backporting commits.",
        .resetLocalBranchAgainstOrigin "/w" "trunk",
        .cherrypickCommitIntoBranch "/w" "a1",
        .cherrypickCommitIntoBranch "/w" "b2",
        .pushBranchToOrigin "/w" (some "trunk") ] := by
  constructor
  · exact (C4_backport_skip_or_replay _ _).1 (by decide)
  · have h := (C4_backport_skip_or_replay cfgLatestMinor ["a1", "b2"]).2 (by decide) (by decide)
    simpa [cfgLatestMinor] using h

/-- C10: the release branch returned by `runWordPressReleaseBranchSyncStep`
is a function of the release type alone: `wp/next` for `next` and `wp/trunk`
otherwise (in particular for `latest` and `bugfix`), whatever the repository
state, environment and abort message are. -/
theorem C10_release_branch_pure (c : WPPackagesConfig) (repo : RepoState) (env : Env)
    (m b : String) (h : (runWordPressReleaseBranchSyncStep c repo env m).2 = .ok b) :
    b = if c.releaseType = .next then "wp/next" else "wp/trunk" := by
  cases hrt : c.releaseType <;>
    rcases hG : confirmGate c.interactive env (syncPrompt repo.pluginReleaseBranch) m with ⟨ce, res⟩ <;>
    cases res <;>
    simp_all [runWordPressReleaseBranchSyncStep, hrt, hG]

/-- Witness for C10: a concrete non-interactive `next` run returns
`wp/next`. -/
theorem C10_witness :
    ("wp/next" : String) =
      if ReleaseType.next = ReleaseType.next then "wp/next" else "wp/trunk" :=
  C10_release_branch_pure { cfgLatestMinor with releaseType := .next } repoData envT
    "Aborting!" "wp/next" rfl

/-- C7: every record built by `updatePackages` comes from a package whose
manifest is not private, and dropping the private packages beforehand changes
nothing — so a private package never yields a record, whatever its changelog
says. -/
theorem C7_private_packages_excluded (c : WPPackagesConfig) (repo : RepoState) :
    (∀ r ∈ processedPackages c repo, ∃ p ∈ repo.packages, p.isPrivate = false ∧
        r = processPackage c.gitWorkingDirectoryPath c.minimumVersionBump c.releaseType
              repo.dependencies p) ∧
    processedPackages c { repo with packages := repo.packages.filter fun p => !p.isPrivate } =
      processedPackages c repo := by
  constructor
  · intro r hr
    unfold processedPackages at hr
    rw [List.mem_map] at hr
    obtain ⟨p, hp, rfl⟩ := hr
    rw [List.mem_filter] at hp
    exact ⟨p, hp.1, by simpa using hp.2, rfl⟩
  · unfold processedPackages
    simp [List.filter_filter]

/-- Witness for C7: in a repository with a private `blocks` package carrying
a breaking change and a public `data` package, the sole record is the one of
the public package. -/
theorem C7_witness :
    ∃ p ∈ repoMixed.packages, p.isPrivate = false ∧
      processPackage cfgLatestMinor.gitWorkingDirectoryPath cfgLatestMinor.minimumVersionBump
          cfgLatestMinor.releaseType repoMixed.dependencies
          { name := "data", changelog := sampleChangelog,
            version := ⟨1, 2, 3, []⟩, isPrivate := false } =
        processPackage cfgLatestMinor.gitWorkingDirectoryPath cfgLatestMinor.minimumVersionBump
          cfgLatestMinor.releaseType repoMixed.dependencies p :=
  (C7_private_packages_excluded cfgLatestMinor repoMixed).1
    (processPackage cfgLatestMinor.gitWorkingDirectoryPath cfgLatestMinor.minimumVersionBump
      cfgLatestMinor.releaseType repoMixed.dependencies
      { name := "data", changelog := sampleChangelog,
        version := ⟨1, 2, 3, []⟩, isPrivate := false })
    (by decide)

/-- C2: for a package whose changelog yields a null raw bump, the bump is
forced to `minimumVersionBump` exactly when the release type is not `next`,
the minimum is not `patch`, and the package name is a production dependency
of the top-level manifest; in every other null-bump case `nextVersion` is
null and the record is excluded from `packagesToUpdate`. -/
theorem C2_null_bump_floor (c : WPPackagesConfig) (repo : RepoState) (p : PackageOnDisk)
    (h : calculateVersionBumpFromChangelog (linesOfString p.changelog)
      c.minimumVersionBump = none) :
    ((processPackage c.gitWorkingDirectoryPath c.minimumVersionBump c.releaseType
        repo.dependencies p).nextVersion =
      if c.releaseType ≠ .next ∧ c.minimumVersionBump ≠ .patch ∧
          repo.dependencies.contains ("@wordpress/" ++ p.name)
      then some (semverInc p.version c.minimumVersionBump) else none) ∧
    ((processPackage c.gitWorkingDirectoryPath c.minimumVersionBump c.releaseType
        repo.dependencies p).nextVersion = none →
      processPackage c.gitWorkingDirectoryPath c.minimumVersionBump c.releaseType
        repo.dependencies p ∉ packagesToUpdate c repo) := by
  constructor
  · by_cases hc : c.releaseType ≠ ReleaseType.next ∧ c.minimumVersionBump ≠ SemVer.patch ∧
        repo.dependencies.contains ("@wordpress/" ++ p.name)
    · rw [if_pos hc]
      simp [processPackage, h, hc.1, hc.2.1]
      simpa using hc.2.2
    · rw [if_neg hc]
      simp only [processPackage, h]
      simp
      intro h1 h2 h3
      exact hc ⟨h1, h2, by simpa using h3⟩
  · intro hnone hmem
    unfold packagesToUpdate at hmem
    rw [List.mem_filter] at hmem
    simp [hnone] at hmem

/-- Witness for C2: the package `quiet` has an empty "Unreleased" section;
on a stable release with minimum bump `minor` and `@wordpress/quiet` among
the production dependencies the floor applies. -/
theorem C2_witness :
    calculateVersionBumpFromChangelog (linesOfString pkgQuiet.changelog)
        cfgLatestMinor.minimumVersionBump = none ∧
    ((processPackage cfgLatestMinor.gitWorkingDirectoryPath cfgLatestMinor.minimumVersionBump
        cfgLatestMinor.releaseType repoQuiet.dependencies pkgQuiet).nextVersion =
      if cfgLatestMinor.releaseType ≠ .next ∧ cfgLatestMinor.minimumVersionBump ≠ .patch ∧
          repoQuiet.dependencies.contains ("@wordpress/" ++ pkgQuiet.name)
      then some (semverInc pkgQuiet.version cfgLatestMinor.minimumVersionBump) else none) :=
  ⟨by decide, (C2_null_bump_floor cfgLatestMinor repoQuiet pkgQuiet (by decide)).1⟩

/-- C6: every record with a non-null `nextVersion` gets its manifest's
version field rewritten to exactly `nextVersion` followed by the
`-prerelease` marker, whatever the release type is. -/
theorem C6_manifest_prerelease_marker (c : WPPackagesConfig) (repo : RepoState) (env : Env)
    (d m : String) (r : ProcessedPackage) (hr : r ∈ packagesToUpdate c repo) :
    ∃ nv, r.nextVersion = some nv ∧
      Effect.writePackageJson r.packageJSONPath (nv.render ++ "-prerelease") ∈
        (updatePackages c repo env d m).2.1 := by
  have hsome : r.nextVersion.isSome := by
    have hm := hr
    unfold packagesToUpdate at hm
    exact (List.mem_filter.mp hm).2
  obtain ⟨nv, hnv⟩ := Option.isSome_iff_exists.mp hsome
  refine ⟨nv, hnv, ?_⟩
  have hne : packagesToUpdate c repo ≠ [] := fun hE => by
    rw [hE] at hr
    exact absurd hr (List.not_mem_nil r)
  have hmem : Effect.writePackageJson r.packageJSONPath (nv.render ++ "-prerelease") ∈
      updateLoopEffects c repo d := by
    unfold updateLoopEffects
    rw [List.mem_flatten]
    refine ⟨updateEffectsFor c.gitWorkingDirectoryPath c.releaseType d repo r,
      List.mem_map_of_mem _ hr, ?_⟩
    unfold updateEffectsFor
    rw [hnv]
    simp
  unfold updatePackages
  rw [if_neg hne]
  rcases hG : confirmGate c.interactive env commitPrompt m with ⟨ce, res⟩
  cases res <;> simp [hmem]

/-- Witness for C6: the concrete stable run over `repoData` writes the
manifest version `1.3.0-prerelease` for `@wordpress/data`. -/
theorem C6_witness :
    ∃ nv, (processPackage cfgLatestMinor.gitWorkingDirectoryPath
        cfgLatestMinor.minimumVersionBump cfgLatestMinor.releaseType repoData.dependencies
        { name := "data", changelog := sampleChangelog,
          version := ⟨1, 2, 3, []⟩, isPrivate := false }).nextVersion = some nv ∧
      Effect.writePackageJson "/w/packages/data/package.json" (nv.render ++ "-prerelease") ∈
        (updatePackages cfgLatestMinor repoData envT "2021-05-01" "Aborting!").2.1 :=
  C6_manifest_prerelease_marker cfgLatestMinor repoData envT "2021-05-01" "Aborting!"
    (processPackage cfgLatestMinor.gitWorkingDirectoryPath cfgLatestMinor.minimumVersionBump
      cfgLatestMinor.releaseType repoData.dependencies
      { name := "data", changelog := sampleChangelog,
        version := ⟨1, 2, 3, []⟩, isPrivate := false })
    (by decide)

/-- C8: `runWordPressReleaseBranchSyncStep` replaces the branch content from
the plugin release branch and commits the overwrite exactly for the `latest`
and `next` release types (the commit gated, interactively, behind an accepted
confirmation); for `bugfix` neither a content replacement nor a sync commit
appears in the trace. -/
theorem C8_branch_sync_overwrite (c : WPPackagesConfig) (repo : RepoState) (env : Env)
    (m : String) :
    (c.releaseType = .bugfix →
      ((runWordPressReleaseBranchSyncStep c repo env m).1.any isContentReplacement = false ∧
       (runWordPressReleaseBranchSyncStep c repo env m).1.any isCommitEffect = false)) ∧
    ((c.releaseType = .latest ∨ c.releaseType = .next) →
      (c.interactive = true → env.confirm (syncPrompt repo.pluginReleaseBranch) = true) →
      (Effect.replaceContentFromRemoteBranch c.gitWorkingDirectoryPath repo.pluginReleaseBranch ∈
          (runWordPressReleaseBranchSyncStep c repo env m).1 ∧
       Effect.commit c.gitWorkingDirectoryPath (mergeCommitMsg repo.pluginReleaseBranch) none ∈
          (runWordPressReleaseBranchSyncStep c repo env m).1)) := by
  constructor
  · intro hb
    simp [runWordPressReleaseBranchSyncStep, hb, isContentReplacement, isCommitEffect]
  · intro hln hconf
    have hgate : confirmGate c.interactive env (syncPrompt repo.pluginReleaseBranch) m =
        (if c.interactive then [Effect.askForConfirmation (syncPrompt repo.pluginReleaseBranch)]
          else [], .ok ()) := by
      unfold confirmGate
      cases hi : c.interactive
      · simp
      · simp [hconf hi]
    cases hln with
    | inl hl => simp [runWordPressReleaseBranchSyncStep, hl, hgate]
    | inr hn => simp [runWordPressReleaseBranchSyncStep, hn, hgate]

/-- Witness for C8: a concrete bugfix run neither replaces content nor
commits; a concrete `latest` run does both. -/
theorem C8_witness :
    ((runWordPressReleaseBranchSyncStep { cfgLatestMinor with releaseType := .bugfix }
        repoData envT "Aborting!").1.any isContentReplacement = false ∧
     (runWordPressReleaseBranchSyncStep { cfgLatestMinor with releaseType := .bugfix }
        repoData envT "Aborting!").1.any isCommitEffect = false) ∧
    (Effect.replaceContentFromRemoteBranch "/w" "release/10.0" ∈
        (runWordPressReleaseBranchSyncStep cfgLatestMinor repoData envT "Aborting!").1 ∧
     Effect.commit "/w" (mergeCommitMsg "release/10.0") none ∈
        (runWordPressReleaseBranchSyncStep cfgLatestMinor repoData envT "Aborting!").1) := by
  constructor
  · exact (C8_branch_sync_overwrite { cfgLatestMinor with releaseType := .bugfix }
      repoData envT "Aborting!").1 rfl
  · exact (C8_branch_sync_overwrite cfgLatestMinor repoData envT "Aborting!").2
      (Or.inl rfl) (by intro h; exact absurd h (by decide))

/-! ## Helper lemmas for the orchestrator-level claims -/

/-- The "no changes" short-circuit of `updatePackages`. -/
theorem updatePackages_no_changes (c : WPPackagesConfig) (repo : RepoState) (env : Env)
    (d m : String) (h : packagesToUpdate c repo = []) :
    updatePackages c repo env d m = (repo, [.logMsg noChangesMsg], .ok none) := by
  unfold updatePackages
  rw [if_pos h]

/-- Whether some package needs an update depends only on the minimum bump and
the release type of the config, not on its working directory or
interactivity. -/
theorem packagesToUpdate_empty_congr (c c' : WPPackagesConfig) (repo : RepoState)
    (hmv : c'.minimumVersionBump = c.minimumVersionBump)
    (hrt : c'.releaseType = c.releaseType)
    (h : packagesToUpdate c repo = []) :
    packagesToUpdate c' repo = [] := by
  unfold packagesToUpdate processedPackages at h ⊢
  rw [List.filter_eq_nil_iff] at h ⊢
  intro r hr
  rw [List.mem_map] at hr
  obtain ⟨p, hp, rfl⟩ := hr
  rw [hmv, hrt]
  exact h (processPackage c.gitWorkingDirectoryPath c.minimumVersionBump c.releaseType
    repo.dependencies p) (List.mem_map_of_mem _ hp)

/-- Non-interactive branch sync never aborts. -/
theorem sync_ok_noninteractive (c : WPPackagesConfig) (repo : RepoState) (env : Env)
    (m : String) (h : c.interactive = false) :
    (runWordPressReleaseBranchSyncStep c repo env m).2 =
      .ok (if c.releaseType = .next then "wp/next" else "wp/trunk") := by
  unfold runWordPressReleaseBranchSyncStep confirmGate
  rw [h]
  cases hrt : c.releaseType <;> simp [hrt]

/-- The non-interactive push step pushes `config.releaseBranch` and
succeeds. -/
theorem push_ok_noninteractive (c : WPPackagesConfig) (env : Env) (m : String)
    (h : c.interactive = false) :
    runPushGitChangesStep c env m =
      ([.pushBranchToOrigin c.gitWorkingDirectoryPath c.releaseBranch], .ok ()) := by
  unfold runPushGitChangesStep confirmGate
  rw [h]
  simp

/-- C1 (amended): a run of `updatePackages` that finds zero packages needing
updates logs ">> No changes in CHANGELOG files detected.", performs no other
effect, leaves the repository untouched and returns a `none` commit hash —
but the orchestrator still runs the push and publish stages afterwards (only
the backport list drops the null hash). -/
theorem C1_no_changes_null_hash (c : WPPackagesConfig) (repo : RepoState) (env : Env)
    (d m : String) (h : packagesToUpdate c repo = []) :
    updatePackages c repo env d m = (repo, [.logMsg noChangesMsg], .ok none) ∧
    (c.interactive = false →
      ((prepareForPackageRelease c repo env d).2.1.any isPushEffect = true ∧
       (prepareForPackageRelease c repo env d).2.1.any isNpmCiEffect = true)) := by
  refine ⟨updatePackages_no_changes c repo env d m h, ?_⟩
  intro hni
  have h' : packagesToUpdate
      { c with gitWorkingDirectoryPath := env.cwd, interactive := false } repo = [] :=
    packagesToUpdate_empty_congr c _ repo rfl rfl h
  have hu := updatePackages_no_changes
    { c with gitWorkingDirectoryPath := env.cwd, interactive := false } repo env d
    "Aborting!" h'
  have hs := sync_ok_noninteractive
    { c with gitWorkingDirectoryPath := env.cwd, interactive := false } repo env
    "Aborting!" rfl
  unfold prepareForPackageRelease
  simp only [hni, Bool.false_eq_true, if_false]
  rcases hsync : runWordPressReleaseBranchSyncStep
      { c with gitWorkingDirectoryPath := env.cwd, interactive := false }
      repo env "Aborting!" with ⟨e₁, r₁⟩
  rw [hsync] at hs
  simp only at hs
  subst hs
  have hp : ∀ msg, runPushGitChangesStep
      { c with gitWorkingDirectoryPath := env.cwd, interactive := false } env msg =
      ([.pushBranchToOrigin env.cwd c.releaseBranch], .ok ()) :=
    fun msg => push_ok_noninteractive _ env msg rfl
  simp only [hu, hp]
  cases hrt : c.releaseType <;>
    simp [publishPackagesToNpm, isPushEffect, isNpmCiEffect, hrt]

/-- Counterexample to C1 as stated: on a concrete run where `updatePackages`
finds zero packages to update, the push and publish stages are not skipped —
the trace still contains a push and the `npm ci` publish prologue. -/
theorem C1_counterexample :
    packagesToUpdate cfgLatestMinor repoEmpty = [] ∧
    (prepareForPackageRelease cfgLatestMinor repoEmpty envT "2021-05-01").2.1.any
      isPushEffect = true ∧
    (prepareForPackageRelease cfgLatestMinor repoEmpty envT "2021-05-01").2.1.any
      isNpmCiEffect = true := by
  exact ⟨rfl, rfl, rfl⟩

/-- Witness for C1 (amended) at a concrete no-change run. -/
theorem C1_witness :
    updatePackages cfgLatestMinor repoEmpty envT "2021-05-01" "Aborting!" =
      (repoEmpty, [.logMsg noChangesMsg], .ok none) ∧
    ((prepareForPackageRelease cfgLatestMinor repoEmpty envT "2021-05-01").2.1.any
        isPushEffect = true ∧
     (prepareForPackageRelease cfgLatestMinor repoEmpty envT "2021-05-01").2.1.any
        isNpmCiEffect = true) := by
  have h := C1_no_changes_null_hash cfgLatestMinor repoEmpty envT "2021-05-01" "Aborting!"
    (by decide)
  exact ⟨h.1, h.2 rfl⟩

/-- The update loop itself never prompts: its effects are file writes and
log lines only. -/
theorem confirms_updateLoop (c : WPPackagesConfig) (repo : RepoState) (d : String) :
    (updateLoopEffects c repo d).filter isConfirmEffect = [] := by
  rw [List.filter_eq_nil_iff]
  intro e he
  unfold updateLoopEffects at he
  rw [List.mem_flatten] at he
  obtain ⟨l, hl, hel⟩ := he
  rw [List.mem_map] at hl
  obtain ⟨r, _, rfl⟩ := hl
  unfold updateEffectsFor at hel
  cases hnv : r.nextVersion with
  | none => rw [hnv] at hel; simp at hel
  | some nv =>
      rw [hnv] at hel
      simp only [List.mem_cons, List.not_mem_nil, or_false] at hel
      rcases hel with rfl | rfl | rfl <;> simp [isConfirmEffect]

/-- A non-interactive branch sync prompts nobody. -/
theorem sync_confirms_noninteractive (c : WPPackagesConfig) (repo : RepoState) (env : Env)
    (m : String) (h : c.interactive = false) :
    countConfirms (runWordPressReleaseBranchSyncStep c repo env m).1 = 0 := by
  unfold runWordPressReleaseBranchSyncStep confirmGate
  rw [h]
  cases hrt : c.releaseType <;> simp [hrt, countConfirms, isConfirmEffect]

/-- A non-interactive update step prompts nobody. -/
theorem update_confirms_noninteractive (c : WPPackagesConfig) (repo : RepoState) (env : Env)
    (d m : String) (h : c.interactive = false) :
    countConfirms (updatePackages c repo env d m).2.1 = 0 := by
  unfold updatePackages confirmGate
  rw [h]
  split
  · simp [countConfirms, isConfirmEffect]
  · simp [countConfirms, List.filter_append, confirms_updateLoop, isConfirmEffect]

/-- A non-interactive update step always succeeds. -/
theorem update_ok_noninteractive (c : WPPackagesConfig) (repo : RepoState) (env : Env)
    (d m : String) (h : c.interactive = false) :
    ∃ hsh, (updatePackages c repo env d m).2.2 = .ok hsh := by
  unfold updatePackages confirmGate
  rw [h]
  split <;> simp

/-- The publish stage never prompts. -/
theorem publish_confirms (c : WPPackagesConfig) (env : Env) :
    countConfirms (publishPackagesToNpm c env).1 = 0 := by
  unfold publishPackagesToNpm
  cases hrt : c.releaseType <;> simp [hrt, countConfirms, isConfirmEffect]

/-- The backport stage never prompts. -/
theorem backport_confirms (c : WPPackagesConfig) (commits : List String) :
    countConfirms (backportCommitsToTrunk c commits) = 0 := by
  unfold backportCommitsToTrunk
  split
  · simp [countConfirms]
  · simp only [countConfirms, List.filter_append, List.length_append]
    rw [List.filter_eq_nil_iff.mpr, List.filter_eq_nil_iff.mpr, List.filter_eq_nil_iff.mpr]
    · simp
    · intro e he
      simp only [List.mem_singleton] at he
      subst he
      simp [isConfirmEffect]
    · intro e he
      rw [List.mem_map] at he
      obtain ⟨x, _, rfl⟩ := he
      simp [isConfirmEffect]
    · intro e he
      simp only [List.mem_cons, List.not_mem_nil, or_false] at he
      rcases he with rfl | rfl <;> simp [isConfirmEffect]

/-- An interactive, accepted branch sync for `latest`/`next` prompts exactly
once and succeeds. -/
theorem sync_confirms_interactive (c : WPPackagesConfig) (repo : RepoState) (env : Env)
    (m : String) (hi : c.interactive = true) (hacc : ∀ s, env.confirm s = true)
    (hrt : c.releaseType = .latest ∨ c.releaseType = .next) :
    countConfirms (runWordPressReleaseBranchSyncStep c repo env m).1 = 1 ∧
    (runWordPressReleaseBranchSyncStep c repo env m).2 =
      .ok (if c.releaseType = .next then "wp/next" else "wp/trunk") := by
  unfold runWordPressReleaseBranchSyncStep confirmGate
  rw [hi]
  rcases hrt with h | h <;> simp [h, hacc, countConfirms, isConfirmEffect]

/-- An interactive, accepted update step with pending updates prompts exactly
once and commits. -/
theorem update_confirms_interactive (c : WPPackagesConfig) (repo : RepoState) (env : Env)
    (d m : String) (hi : c.interactive = true) (hacc : ∀ s, env.confirm s = true)
    (hne : packagesToUpdate c repo ≠ []) :
    countConfirms (updatePackages c repo env d m).2.1 = 1 ∧
    (updatePackages c repo env d m).2.2 = .ok (some env.commitHash) := by
  unfold updatePackages confirmGate
  rw [if_neg hne, hi]
  simp [hacc, countConfirms, List.filter_append, confirms_updateLoop, isConfirmEffect]

/-- An interactive, accepted push step prompts exactly once and pushes. -/
theorem push_interactive_accepted (c : WPPackagesConfig) (env : Env) (m : String)
    (hi : c.interactive = true) (hacc : ∀ s, env.confirm s = true) :
    runPushGitChangesStep c env m =
      ([.askForConfirmation pushPrompt,
        .pushBranchToOrigin c.gitWorkingDirectoryPath c.releaseBranch], .ok ()) := by
  unfold runPushGitChangesStep confirmGate
  rw [hi]
  simp [hacc]

/-- Confirmation counting distributes over trace concatenation. -/
theorem countConfirms_append (a b : List Effect) :
    countConfirms (a ++ b) = countConfirms a + countConfirms b := by
  simp [countConfirms, List.filter_append]

/-- C9 (amended): with `interactive = false` the whole pipeline makes no call
to the confirmation adapter at all; with `interactive = true` and every
prompt accepted, the four gates that apply to an interactive `latest`/`next`
run with pending updates (before clone, before branch replacement, before the
changelog commit, before push) each fire exactly once; and a declined first
confirmation aborts the run with "Aborting". -/
theorem C9_confirmation_gates (c : WPPackagesConfig) (repo : RepoState) (env : Env)
    (d : String) :
    (c.interactive = false →
      countConfirms (prepareForPackageRelease c repo env d).2.1 = 0) ∧
    (c.interactive = true → (∀ s, env.confirm s = true) →
      (c.releaseType = .latest ∨ c.releaseType = .next) →
      packagesToUpdate { c with gitWorkingDirectoryPath := env.cloneDir } repo ≠ [] →
      countConfirms (prepareForPackageRelease c repo env d).2.1 = 4) ∧
    (c.interactive = true → env.confirm "Ready to go?" = false →
      prepareForPackageRelease c repo env d =
        (repo, [.askForConfirmation "Ready to go?"], .error "Aborting")) := by
  refine ⟨?_, ?_, ?_⟩
  · intro hni
    unfold prepareForPackageRelease
    simp only [hni, Bool.false_eq_true, if_false]
    rcases hsync : runWordPressReleaseBranchSyncStep
        { c with gitWorkingDirectoryPath := env.cwd, interactive := false }
        repo env "Aborting!" with ⟨e₁, r₁⟩
    have hs := sync_ok_noninteractive
      { c with gitWorkingDirectoryPath := env.cwd, interactive := false } repo env
      "Aborting!" rfl
    rw [hsync] at hs
    simp only at hs
    subst hs
    have hs0 := sync_confirms_noninteractive
      { c with gitWorkingDirectoryPath := env.cwd, interactive := false } repo env
      "Aborting!" rfl
    rw [hsync] at hs0
    simp only at hs0
    rcases hupd : updatePackages
        { c with gitWorkingDirectoryPath := env.cwd, interactive := false }
        repo env d "Aborting!" with ⟨repo₁, e₂, r₂⟩
    obtain ⟨hsh, hok⟩ := update_ok_noninteractive
      { c with gitWorkingDirectoryPath := env.cwd, interactive := false } repo env d
      "Aborting!" rfl
    rw [hupd] at hok
    simp only at hok
    subst hok
    have hu0 := update_confirms_noninteractive
      { c with gitWorkingDirectoryPath := env.cwd, interactive := false } repo env d
      "Aborting!" rfl
    rw [hupd] at hu0
    simp only at hu0
    have hp : ∀ msg, runPushGitChangesStep
        { c with gitWorkingDirectoryPath := env.cwd, interactive := false } env msg =
        ([.pushBranchToOrigin env.cwd c.releaseBranch], .ok ()) :=
      fun msg => push_ok_noninteractive _ env msg rfl
    simp only [hp]
    simp only [countConfirms_append, hs0, hu0, publish_confirms, backport_confirms]
    simp [countConfirms, isConfirmEffect]
  · intro hi hacc hrt hne
    unfold prepareForPackageRelease
    simp only [hi, if_true]
    have hg : confirmGate true env "Ready to go?" "Aborting" =
        ([.askForConfirmation "Ready to go?"], .ok ()) := by
      unfold confirmGate
      simp [hacc]
    simp only [hg]
    rcases hsync : runWordPressReleaseBranchSyncStep
        { c with gitWorkingDirectoryPath := env.cloneDir, interactive := true }
        repo env "Aborting!" with ⟨e₁, r₁⟩
    have hs := sync_confirms_interactive
      { c with gitWorkingDirectoryPath := env.cloneDir, interactive := true } repo env
      "Aborting!" rfl hacc hrt
    rw [hsync] at hs
    simp only at hs
    obtain ⟨hs1, hs2⟩ := hs
    subst hs2
    rcases hupd : updatePackages
        { c with gitWorkingDirectoryPath := env.cloneDir, interactive := true }
        repo env d "Aborting!" with ⟨repo₁, e₂, r₂⟩
    have hu := update_confirms_interactive
      { c with gitWorkingDirectoryPath := env.cloneDir, interactive := true } repo env d
      "Aborting!" rfl hacc hne
    rw [hupd] at hu
    simp only at hu
    obtain ⟨hu1, hu2⟩ := hu
    subst hu2
    have hp : ∀ msg, runPushGitChangesStep
        { c with gitWorkingDirectoryPath := env.cloneDir, interactive := true } env msg =
        ([.askForConfirmation pushPrompt,
          .pushBranchToOrigin env.cloneDir c.releaseBranch], .ok ()) :=
      fun msg => push_interactive_accepted _ env msg rfl hacc
    simp only [hp]
    simp only [countConfirms_append, hs1, hu1, publish_confirms, backport_confirms]
    simp [countConfirms, isConfirmEffect]
  · intro hi hdec
    unfold prepareForPackageRelease
    simp only [hi, if_true]
    have hg : confirmGate true env "Ready to go?" "Aborting" =
        ([.askForConfirmation "Ready to go?"], .error "Aborting") := by
      unfold confirmGate
      simp [hdec]
    simp only [hg]

/-- Counterexample to C9 as stated: on a concrete interactive bugfix run with
nothing to update and every prompt accepted, only two of the four claimed
confirmation gates run (before the clone and before the push) — the
branch-replacement and commit gates never fire. -/
theorem C9_counterexample :
    cfgBugfixInteractive.interactive = true ∧
    countConfirms
      (prepareForPackageRelease cfgBugfixInteractive repoEmpty envT "2021-05-01").2.1 = 2 := by
  exact ⟨rfl, rfl⟩

/-- Witness for C9 (amended) at concrete runs: a CI run prompts zero times, a
fully-accepted interactive `latest` run with pending updates prompts exactly
four times, and declining the first prompt aborts. -/
theorem C9_witness :
    countConfirms (prepareForPackageRelease cfgLatestMinor repoEmpty envT "2021-05-01").2.1
        = 0 ∧
    countConfirms (prepareForPackageRelease cfgLatestInteractive repoData envT "2021-05-01").2.1
        = 4 ∧
    prepareForPackageRelease cfgLatestInteractive repoData envF "2021-05-01" =
      (repoData, [.askForConfirmation "Ready to go?"], .error "Aborting") := by
  refine ⟨(C9_confirmation_gates cfgLatestMinor repoEmpty envT "2021-05-01").1 rfl,
    (C9_confirmation_gates cfgLatestInteractive repoData envT "2021-05-01").2.1 rfl
      (fun _ => rfl) (Or.inl rfl) (by decide),
    (C9_confirmation_gates cfgLatestInteractive repoData envF "2021-05-01").2.2 rfl rfl⟩

/-! ## Line-splitting lemmas -/

/-- `splitOnChar` never returns the empty list. -/
theorem split_ne_nil (sep : Char) (cs : List Char) : splitOnChar sep cs ≠ [] := by
  induction cs with
  | nil => simp [splitOnChar]
  | cons c cs ih =>
      unfold splitOnChar
      cases h : splitOnChar sep cs with
      | nil => simp
      | cons l ls =>
          dsimp only
          split <;> simp

/-- No piece produced by `splitOnChar` contains the separator. -/
theorem sep_not_mem_split (sep : Char) (cs : List Char) :
    ∀ l ∈ splitOnChar sep cs, sep ∉ l := by
  induction cs with
  | nil =>
      intro l hl
      simp [splitOnChar] at hl
      subst hl
      simp
  | cons c cs ih =>
      intro l hl
      unfold splitOnChar at hl
      cases h : splitOnChar sep cs with
      | nil => exact absurd h (split_ne_nil sep cs)
      | cons x xs =>
          rw [h] at hl
          dsimp only at hl
          by_cases hc : c = sep
          · rw [if_pos hc] at hl
            rcases List.mem_cons.mp hl with rfl | hl'
            · simp
            · exact ih l (h ▸ hl')
          · rw [if_neg hc] at hl
            rcases List.mem_cons.mp hl with rfl | hl'
            · intro hmem
              rcases List.mem_cons.mp hmem with rfl | hmem'
              · exact hc rfl
              · exact ih x (h ▸ List.mem_cons_self x xs) hmem'
            · exact ih l (h ▸ List.mem_cons_of_mem x hl')

/-- Joining a list whose head line gains a character. -/
theorem join_cons (c : Char) (l : List Char) (ls : List (List Char)) :
    joinLines ((c :: l) :: ls) = c :: joinLines (l :: ls) := by
  cases ls <;> simp [joinLines]

/-- Splitting and re-joining is the identity. -/
theorem join_split (cs : List Char) : joinLines (splitOnChar '\n' cs) = cs := by
  induction cs with
  | nil => simp [splitOnChar, joinLines]
  | cons c cs ih =>
      rcases hx : splitOnChar '\n' cs with _ | ⟨x, xs⟩
      · exact absurd hx (split_ne_nil _ cs)
      · rw [hx] at ih
        unfold splitOnChar
        rw [hx]
        dsimp only
        by_cases hc : c = '\n'
        · rw [if_pos hc, hc]
          simpa [joinLines] using ih
        · rw [if_neg hc]
          rw [join_cons, ih]

/-- Splitting after a leading separator yields a leading empty line. -/
theorem split_sep_cons (sep : Char) (cs : List Char) :
    splitOnChar sep (sep :: cs) = [] :: splitOnChar sep cs := by
  rcases hx : splitOnChar sep cs with _ | ⟨x, xs⟩
  · exact absurd hx (split_ne_nil sep cs)
  · unfold splitOnChar
    rw [hx]
    simp

/-- Splitting a separator-free chunk followed by a separator peels the chunk
off as the first line. -/
theorem split_nosep_append (sep : Char) (x r : List Char) (hx : sep ∉ x) :
    splitOnChar sep (x ++ sep :: r) = x :: splitOnChar sep r := by
  induction x with
  | nil => simpa using split_sep_cons sep r
  | cons c x ih =>
      have hc : ¬ c = sep := fun h => hx (h ▸ List.mem_cons_self c x)
      have hx' : sep ∉ x := fun h => hx (List.mem_cons_of_mem _ h)
      have ih' := ih hx'
      simp only [List.cons_append]
      rw [show splitOnChar sep (c :: (x ++ sep :: r)) =
          (match splitOnChar sep (x ++ sep :: r) with
            | [] => [[]]
            | l :: ls => if c = sep then [] :: l :: ls else (c :: l) :: ls) from rfl]
      rw [ih']
      dsimp only
      rw [if_neg hc]

/-- A separator-free text is a single line. -/
theorem split_nosep (sep : Char) (x : List Char) (hx : sep ∉ x) :
    splitOnChar sep x = [x] := by
  induction x with
  | nil => rfl
  | cons c x ih =>
      have hc : ¬ c = sep := fun h => hx (h ▸ List.mem_cons_self c x)
      have hx' : sep ∉ x := fun h => hx (List.mem_cons_of_mem _ h)
      rw [show splitOnChar sep (c :: x) =
          (match splitOnChar sep x with
            | [] => [[]]
            | l :: ls => if c = sep then [] :: l :: ls else (c :: l) :: ls) from rfl]
      rw [ih hx']
      dsimp only
      rw [if_neg hc]

/-- Joining an append of two non-empty line lists. -/
theorem join_append (l1 l2 : List (List Char)) (h1 : l1 ≠ []) (h2 : l2 ≠ []) :
    joinLines (l1 ++ l2) = joinLines l1 ++ '\n' :: joinLines l2 := by
  induction l1 with
  | nil => exact absurd rfl h1
  | cons x l1 ih =>
      cases l1 with
      | nil =>
          rcases l2 with _ | ⟨y, l2'⟩
          · exact absurd rfl h2
          · simp [joinLines]
      | cons y l1' =>
          have ih' := ih (by simp)
          simp only [List.cons_append] at ih' ⊢
          rw [show joinLines (x :: (y :: (l1' ++ l2))) =
            x ++ '\n' :: joinLines (y :: (l1' ++ l2)) from rfl]
          rw [show joinLines (x :: y :: l1') = x ++ '\n' :: joinLines (y :: l1') from rfl]
          rw [ih']
          simp

/-- Splitting text that starts with known separator-free lines recovers those
lines. -/
theorem split_join_pre (pre : List (List Char)) (z : List Char) (h0 : pre ≠ [])
    (h : ∀ l ∈ pre, '\n' ∉ l) :
    splitOnChar '\n' (joinLines pre ++ '\n' :: z) = pre ++ splitOnChar '\n' z := by
  induction pre with
  | nil => exact absurd rfl h0
  | cons x pre ih =>
      cases pre with
      | nil => simpa using split_nosep_append '\n' x z (h x (by simp))
      | cons y pre' =>
          have hx : '\n' ∉ x := h x (by simp)
          have ih' := ih (by simp) (fun l hl => h l (List.mem_cons_of_mem _ hl))
          rw [show joinLines (x :: y :: pre') = x ++ '\n' :: joinLines (y :: pre') from rfl]
          simp only [List.append_assoc, List.cons_append]
          rw [split_nosep_append '\n' x _ hx, ih']
          simp

/-- Splitting the join of non-empty, separator-free lines recovers them. -/
theorem split_joinLines (lns : List (List Char)) (h0 : lns ≠ [])
    (h : ∀ l ∈ lns, '\n' ∉ l) : splitOnChar '\n' (joinLines lns) = lns := by
  induction lns with
  | nil => exact absurd rfl h0
  | cons x lns ih =>
      cases lns with
      | nil => exact split_nosep '\n' x (h x (by simp))
      | cons y lns' =>
          rw [show joinLines (x :: y :: lns') = x ++ '\n' :: joinLines (y :: lns') from rfl]
          rw [split_nosep_append '\n' x _ (h x (by simp))]
          rw [ih (by simp) (fun l hl => h l (List.mem_cons_of_mem _ hl))]

/-- The first line of a split is the longest separator-free prefix. -/
theorem split_head_takeWhile (sep : Char) (cs : List Char) :
    ∃ t, splitOnChar sep cs = (cs.takeWhile fun c => !decide (c = sep)) :: t := by
  induction cs with
  | nil => exact ⟨[], rfl⟩
  | cons c cs ih =>
      obtain ⟨t, ht⟩ := ih
      by_cases hc : c = sep
      · subst hc
        exact ⟨splitOnChar c cs, by rw [split_sep_cons]; simp [List.takeWhile_cons]⟩
      · refine ⟨t, ?_⟩
        rw [show splitOnChar sep (c :: cs) =
            (match splitOnChar sep cs with
              | [] => [[]]
              | l :: ls => if c = sep then [] :: l :: ls else (c :: l) :: ls) from rfl]
        rw [ht]
        dsimp only
        rw [if_neg hc]
        simp [hc, List.takeWhile_cons]

/-! ## Substring occurrence lemmas -/

/-- A separator-free prefix of `a ++ sep :: b` is a prefix of `a`. -/
theorem prefix_no_sep {sep : Char} {pat a b : List Char} (h : pat <+: a ++ sep :: b)
    (hs : sep ∉ pat) : pat <+: a := by
  induction a generalizing pat with
  | nil =>
      cases pat with
      | nil => exact List.nil_prefix
      | cons p pat' =>
          rw [List.nil_append, List.cons_prefix_cons] at h
          obtain ⟨rfl, -⟩ := h
          exact absurd (List.mem_cons_self _ _) hs
  | cons x a ih =>
      cases pat with
      | nil => exact List.nil_prefix
      | cons p pat' =>
          rw [List.cons_append, List.cons_prefix_cons] at h
          obtain ⟨rfl, h2⟩ := h
          have hs' : sep ∉ pat' := fun hm => hs (List.mem_cons_of_mem _ hm)
          exact List.cons_prefix_cons.mpr ⟨rfl, ih h2 hs'⟩

/-- A separator-free infix of `a ++ sep :: b` lies entirely in `a` or in
`b`. -/
theorem infix_split_sep {sep : Char} {pat a b : List Char} (h : pat <:+: a ++ sep :: b)
    (hs : sep ∉ pat) : pat <:+: a ∨ pat <:+: b := by
  induction a with
  | nil =>
      rw [List.nil_append] at h
      rcases List.infix_cons_iff.mp h with hp | hi
      · cases pat with
        | nil => exact Or.inl List.nil_infix
        | cons p pat' =>
            rw [List.cons_prefix_cons] at hp
            obtain ⟨rfl, -⟩ := hp
            exact absurd (List.mem_cons_self _ _) hs
      · exact Or.inr hi
  | cons x a ih =>
      rw [List.cons_append] at h
      rcases List.infix_cons_iff.mp h with hp | hi
      · exact Or.inl (List.IsPrefix.isInfix (prefix_no_sep hp hs))
      · rcases ih hi with h1 | h2
        · exact Or.inl (List.infix_cons h1)
        · exact Or.inr h2

/-- A non-empty newline-free infix of joined lines is an infix of one of the
lines. -/
theorem infix_joinLines {pat : List Char} {lns : List (List Char)} (hne : pat ≠ [])
    (hs : '\n' ∉ pat) (h : pat <:+: joinLines lns) : ∃ l ∈ lns, pat <:+: l := by
  induction lns with
  | nil => exact absurd (List.infix_nil.mp h) hne
  | cons x lns ih =>
      cases lns with
      | nil => exact ⟨x, by simp, h⟩
      | cons y lns' =>
          rw [show joinLines (x :: y :: lns') = x ++ '\n' :: joinLines (y :: lns') from rfl] at h
          rcases infix_split_sep h hs with h1 | h2
          · exact ⟨x, by simp, h1⟩
          · obtain ⟨l, hl, hpl⟩ := ih h2
            exact ⟨l, List.mem_cons_of_mem _ hl, hpl⟩

/-- When the first occurrence of `pat` starts right after `A` (no occurrence
begins inside `A`), `replaceFirstAux` substitutes exactly there. -/
theorem rfa_first (pat repl : List Char) (hne : pat ≠ []) :
    ∀ (A B : List Char), ¬ pat <:+: (A ++ pat.dropLast) →
      replaceFirstAux pat repl (A ++ pat ++ B) = A ++ repl ++ B := by
  intro A
  induction A with
  | nil =>
      intro B _
      rcases hp : pat with _ | ⟨p, pat'⟩
      · exact absurd hp hne
      · subst hp
        simp only [List.nil_append, List.cons_append]
        rw [show replaceFirstAux (p :: pat') repl (p :: (pat' ++ B)) =
            (if (p :: pat').isPrefixOf (p :: (pat' ++ B)) then
              repl ++ (p :: (pat' ++ B)).drop (p :: pat').length
            else p :: replaceFirstAux (p :: pat') repl (pat' ++ B)) from rfl]
        rw [if_pos (List.isPrefixOf_iff_prefix.mpr (by
          rw [show p :: (pat' ++ B) = (p :: pat') ++ B from rfl]
          exact List.prefix_append _ _))]
        rw [show p :: (pat' ++ B) = (p :: pat') ++ B from rfl, List.drop_left]
  | cons c A ih =>
      intro B hocc
      have hXY : c :: (A ++ pat ++ B) =
          ((c :: A) ++ pat.dropLast) ++ (pat.getLast hne :: B) := by
        conv_lhs => rw [← List.dropLast_append_getLast hne]
        simp [List.append_assoc]
      have hnp : ¬ (pat.isPrefixOf (c :: (A ++ pat ++ B)) = true) := by
        intro hp
        rw [List.isPrefixOf_iff_prefix] at hp
        apply hocc
        have hlen : pat.length ≤ ((c :: A) ++ pat.dropLast).length := by
          simp only [List.length_append, List.length_cons, List.length_dropLast]
          have h1 : 0 < pat.length := List.length_pos.mpr hne
          omega
        have hXwhole : ((c :: A) ++ pat.dropLast) <+: (c :: (A ++ pat ++ B)) := by
          rw [hXY]
          exact List.prefix_append _ _
        exact (List.prefix_of_prefix_length_le hp hXwhole hlen).isInfix
      have hocc' : ¬ pat <:+: (A ++ pat.dropLast) := by
        intro hI
        apply hocc
        simp only [List.cons_append]
        exact List.infix_cons hI
      simp only [List.cons_append]
      rw [show replaceFirstAux pat repl (c :: (A ++ pat ++ B)) =
          (if pat.isPrefixOf (c :: (A ++ pat ++ B)) then
            repl ++ (c :: (A ++ pat ++ B)).drop pat.length
          else c :: replaceFirstAux pat repl (A ++ pat ++ B)) from rfl]
      rw [if_neg hnp]
      rw [ih B hocc']

/-- Extracting the line decomposition guaranteed by `goodChangelog`: the
lines are some marker-free prefix, the exact `## Unreleased` line, and a
remainder. -/
theorem good_decompose (content : String) (h : goodChangelog content = true) :
    ∃ pre rest, splitOnChar '\n' content.data = pre ++ [marker] ++ rest ∧
      ∀ l ∈ pre, ¬ marker <:+: l := by
  unfold goodChangelog at h
  rcases hd : (splitOnChar '\n' content.data).dropWhile (fun l => !decide (marker <:+: l))
    with _ | ⟨l, rest⟩
  · rw [hd] at h
    simp at h
  · rw [hd] at h
    dsimp only at h
    have hl : l = marker := by simpa using h
    subst hl
    refine ⟨(splitOnChar '\n' content.data).takeWhile (fun l => !decide (marker <:+: l)),
      rest, ?_, ?_⟩
    · conv_lhs => rw [← List.takeWhile_append_dropWhile
        (fun l => !decide (marker <:+: l)) (splitOnChar '\n' content.data)]
      rw [hd]
      simp
    · intro l hl
      have := List.mem_takeWhile_imp hl
      simpa using this

/-- How the changelog rewrite of `updatePackages` transforms the line
structure: the marker line stays, a fresh empty line and the new dated
heading appear right below it, and everything else is untouched. -/
theorem updated_split (rt : ReleaseType) (d : String) (nv : Version) (content : String)
    (pre rest : List (List Char))
    (hsplit : splitOnChar '\n' content.data = pre ++ [marker] ++ rest)
    (hpre : ∀ l ∈ pre, ¬ marker <:+: l) :
    splitOnChar '\n' (updatedChangelog rt d nv content).data =
      pre ++ [marker, []] ++ splitOnChar '\n' (insChars rt d nv ++ sepRest rest) := by
  have hnlm : ('\n' : Char) ∉ marker := by decide
  have hmne : marker ≠ [] := by decide
  have hprelines : ∀ l ∈ pre, '\n' ∉ l := fun l hl =>
    sep_not_mem_split '\n' content.data l
      (by rw [hsplit]; exact List.mem_append_left _ (List.mem_append_left _ hl))
  have hcontent : content.data = joinLines ((pre ++ [marker]) ++ rest) := by
    have hj := join_split content.data
    rw [hsplit] at hj
    exact hj.symm
  have hR : ("## Unreleased\n\n## " ++ headingVersion rt nv ++ " (" ++ d ++ ")").data =
      marker ++ '\n' :: '\n' :: insChars rt d nv := by
    simp [String.data_append, insChars, marker, List.append_assoc, List.cons_append]
  have hrfl : (updatedChangelog rt d nv content).data =
      replaceFirstAux marker
        (("## Unreleased\n\n## " ++ headingVersion rt nv ++ " (" ++ d ++ ")").data)
        content.data := rfl
  rcases eq_or_ne pre [] with rfl | hpre0
  · -- no lines above the marker
    have hdata : content.data = [] ++ marker ++ sepRest rest := by
      rw [hcontent]
      rcases rest with _ | ⟨r, rs⟩
      · simp [joinLines, sepRest]
      · have h2 : joinLines ([marker] ++ (r :: rs)) = marker ++ '\n' :: joinLines (r :: rs) :=
          join_append [marker] (r :: rs) (by simp) (by simp)
        simpa [sepRest] using h2
    have hocc : ¬ marker <:+: ([] ++ marker.dropLast) := by decide
    rw [hrfl, hR, hdata, rfa_first marker _ hmne [] (sepRest rest) hocc]
    simp only [List.nil_append, List.append_assoc, List.cons_append]
    rw [split_nosep_append '\n' marker _ hnlm, split_sep_cons]
  · -- some lines above the marker
    have hdata : content.data = (joinLines pre ++ ['\n']) ++ marker ++ sepRest rest := by
      rw [hcontent]
      rcases rest with _ | ⟨r, rs⟩
      · have h1 : joinLines (pre ++ [marker]) = joinLines pre ++ '\n' :: marker :=
          join_append pre [marker] hpre0 (by simp)
        simpa [sepRest, List.append_assoc] using h1
      · have h1 : joinLines (pre ++ ([marker] ++ (r :: rs))) =
            joinLines pre ++ '\n' :: joinLines ([marker] ++ (r :: rs)) :=
          join_append pre ([marker] ++ (r :: rs)) hpre0 (by simp)
        have h2 : joinLines ([marker] ++ (r :: rs)) = marker ++ '\n' :: joinLines (r :: rs) :=
          join_append [marker] (r :: rs) (by simp) (by simp)
        rw [List.append_assoc, h1, h2]
        simp [sepRest, List.append_assoc]
    have hocc : ¬ marker <:+: ((joinLines pre ++ ['\n']) ++ marker.dropLast) := by
      intro hI
      have hIj : marker <:+: joinLines (pre ++ [marker.dropLast]) := by
        have hj : joinLines (pre ++ [marker.dropLast]) =
            joinLines pre ++ '\n' :: marker.dropLast :=
          join_append pre [marker.dropLast] hpre0 (by simp)
        rw [hj]
        simpa [List.append_assoc] using hI
      obtain ⟨l, hl, hpl⟩ := infix_joinLines hmne hnlm hIj
      rcases List.mem_append.mp hl with hl' | hl'
      · exact hpre l hl' hpl
      · rw [List.mem_singleton] at hl'
        subst hl'
        exact absurd hpl (by decide)
    rw [hrfl, hR, hdata, rfa_first marker _ hmne (joinLines pre ++ ['\n']) (sepRest rest) hocc]
    have hassoc : ((joinLines pre ++ ['\n']) ++ (marker ++ '\n' :: '\n' :: insChars rt d nv)) ++
        sepRest rest =
        joinLines pre ++ '\n' :: (marker ++ '\n' :: ('\n' :: (insChars rt d nv ++ sepRest rest))) := by
      simp [List.append_assoc]
    rw [hassoc, split_join_pre pre _ hpre0 hprelines]
    rw [split_nosep_append '\n' marker _ hnlm, split_sep_cons]
    simp

/-- `dropToUnreleased` skips lines the marker is not a prefix of and stops at
the marker line. -/
theorem dropToUnreleased_append (pre : List (List Char)) (z : List (List Char))
    (h : ∀ l ∈ pre, ¬ (marker.isPrefixOf l = true)) :
    dropToUnreleased (pre ++ marker :: z) = z := by
  induction pre with
  | nil =>
      simp only [List.nil_append]
      rw [show dropToUnreleased (marker :: z) =
          (if marker.isPrefixOf marker then z else dropToUnreleased z) from rfl]
      rw [if_pos (List.isPrefixOf_iff_prefix.mpr (List.prefix_refl _))]
  | cons x pre ih =>
      have hx := h x (List.mem_cons_self x pre)
      rw [show (x :: pre) ++ marker :: z = x :: (pre ++ marker :: z) from rfl]
      rw [show dropToUnreleased (x :: (pre ++ marker :: z)) =
          (if marker.isPrefixOf x then pre ++ marker :: z
            else dropToUnreleased (pre ++ marker :: z)) from rfl]
      rw [if_neg hx]
      exact ih fun l hl => h l (List.mem_cons_of_mem _ hl)

/-- After the rewrite, the bump calculator finds an empty "Unreleased"
section and reports no bump. -/
theorem calc_after_update (rt : ReleaseType) (d : String) (nv : Version) (content : String)
    (minB : SemVer) (hG : goodChangelog content = true) :
    calculateVersionBumpFromChangelog (linesOfString (updatedChangelog rt d nv content))
      minB = none := by
  obtain ⟨pre, rest, hsplit, hpre⟩ := good_decompose content hG
  have hnew := updated_split rt d nv content pre rest hsplit hpre
  have hmapid : ∀ L : List (List Char), (L.map String.mk).map String.data = L := by
    intro L
    induction L with
    | nil => rfl
    | cons x xs ih =>
        simp only [List.map_cons]
        rw [ih]
  unfold calculateVersionBumpFromChangelog linesOfString
  rw [hmapid, hnew]
  have hpre' : ∀ l ∈ pre, ¬ (marker.isPrefixOf l = true) := fun l hl hp =>
    hpre l hl (List.IsPrefix.isInfix (List.isPrefixOf_iff_prefix.mp hp))
  have harr : (pre ++ [marker, []]) ++ splitOnChar '\n' (insChars rt d nv ++ sepRest rest) =
      pre ++ marker :: ([] :: splitOnChar '\n' (insChars rt d nv ++ sepRest rest)) := by
    simp
  rw [harr, dropToUnreleased_append pre _ hpre']
  obtain ⟨t, ht⟩ := split_head_takeWhile '\n' (insChars rt d nv ++ sepRest rest)
  have hi : ∃ w', insChars rt d nv = '#' :: '#' :: ' ' :: w' := by
    refine ⟨(headingVersion rt nv).data ++ ' ' :: '(' :: (d.data ++ [')']), ?_⟩
    simp [insChars, String.data_append]
  obtain ⟨w', hw⟩ := hi
  have hhead : ∃ w, ((insChars rt d nv ++ sepRest rest).takeWhile fun c => !decide (c = '\n'))
      = '#' :: '#' :: ' ' :: w := by
    rw [hw]
    simp [List.takeWhile_cons]
  obtain ⟨w, hwhead⟩ := hhead
  rw [ht, hwhead]
  have hts : takeSection ([] :: ('#' :: '#' :: ' ' :: w) :: t) = [[]] := by
    simp [takeSection, List.isPrefixOf]
  rw [hts]
  simp [sectionEntryBumps, isBlank, List.isPrefixOf]

/-- The repository state returned by `updatePackages`. -/
theorem updatePackages_fst (c : WPPackagesConfig) (repo : RepoState) (env : Env)
    (d m : String) :
    (updatePackages c repo env d m).1 =
      if packagesToUpdate c repo = [] then repo else repoAfterUpdate c repo d := by
  unfold updatePackages
  split
  · rfl
  · rcases hG : confirmGate c.interactive env commitPrompt m with ⟨ce, res⟩
    cases res <;> rfl

/-- When the production floor cannot apply (minimum bump `patch`, or a `next`
release), the next version is just the raw changelog bump applied to the
current version. -/
theorem processPackage_nextVersion_nofloor (dir : String) (minB : SemVer)
    (rt : ReleaseType) (deps : List String) (p : PackageOnDisk)
    (hFloor : minB = SemVer.patch ∨ rt = ReleaseType.next) :
    (processPackage dir minB rt deps p).nextVersion =
      (calculateVersionBumpFromChangelog (linesOfString p.changelog) minB).map
        (semverInc p.version) := by
  unfold processPackage
  dsimp only
  rcases hFloor with hmv | hrt
  · rw [if_neg fun hcon => hcon.2.2.1 hmv]
  · rw [if_neg fun hcon => hcon.2.1 hrt]

/-- After one run of the updater over well-formed changelogs, and with the
production floor off, no package needs an update any more. -/
theorem packagesToUpdate_after_empty (c : WPPackagesConfig) (repo : RepoState) (d : String)
    (hFloor : c.minimumVersionBump = SemVer.patch ∨ c.releaseType = ReleaseType.next)
    (hWF : ∀ p ∈ repo.packages, goodChangelog p.changelog = true) :
    packagesToUpdate c (repoAfterUpdate c repo d) = [] := by
  unfold packagesToUpdate
  rw [List.filter_eq_nil_iff]
  intro r hr
  unfold processedPackages at hr
  rw [List.mem_map] at hr
  obtain ⟨p', hp', rfl⟩ := hr
  rw [List.mem_filter] at hp'
  obtain ⟨hp'mem, hp'pub⟩ := hp'
  have hp'mem' : p' ∈ applyUpdates c.gitWorkingDirectoryPath c.releaseType d
      (packagesToUpdate c repo) repo.packages := hp'mem
  unfold applyUpdates at hp'mem'
  rw [List.mem_map] at hp'mem'
  obtain ⟨q, hq, hfq⟩ := hp'mem'
  rw [processPackage_nextVersion_nofloor _ _ _ _ _ hFloor]
  rcases hfind : (packagesToUpdate c repo).find?
      (fun r => r.changelogPath = changelogPathOf c.gitWorkingDirectoryPath q.name)
    with _ | r₀
  · rw [hfind] at hfq
    dsimp only at hfq
    subst hfq
    rcases hcalc : calculateVersionBumpFromChangelog (linesOfString q.changelog)
        c.minimumVersionBump with _ | b
    · simp [hcalc]
    · exfalso
      have hrec : (processPackage c.gitWorkingDirectoryPath c.minimumVersionBump
          c.releaseType repo.dependencies q) ∈ packagesToUpdate c repo := by
        unfold packagesToUpdate processedPackages
        rw [List.mem_filter]
        refine ⟨List.mem_map_of_mem _ (List.mem_filter.mpr ⟨hq, ?_⟩), ?_⟩
        · simpa using hp'pub
        · rw [processPackage_nextVersion_nofloor _ _ _ _ _ hFloor, hcalc]
          simp
      have hnone := List.find?_eq_none.mp hfind _ hrec
      apply hnone
      simp [processPackage]
  · rw [hfind] at hfq
    dsimp only at hfq
    rcases hnv : r₀.nextVersion with _ | nv
    · rw [hnv] at hfq
      dsimp only at hfq
      subst hfq
      have hr₀ := List.mem_of_find?_eq_some hfind
      unfold packagesToUpdate at hr₀
      rw [List.mem_filter, hnv] at hr₀
      simp at hr₀
    · rw [hnv] at hfq
      dsimp only at hfq
      subst hfq
      simp only [calc_after_update c.releaseType d nv q.changelog c.minimumVersionBump
        (hWF q hq)]
      simp

/-- C3 (amended): when the production minimum-bump floor cannot apply
(`minimumVersionBump = patch` or `releaseType = next`) and every changelog is
well-formed, a second run of `updatePackages` right after a first one finds
no changes: it only logs ">> No changes in CHANGELOG files detected.",
returns a null hash, and adds no second copy of the version heading. -/
theorem C3_rerun_no_changes (c : WPPackagesConfig) (repo : RepoState) (env : Env)
    (d m : String)
    (hFloor : c.minimumVersionBump = SemVer.patch ∨ c.releaseType = ReleaseType.next)
    (hWF : ∀ p ∈ repo.packages, goodChangelog p.changelog = true) :
    updatePackages c ((updatePackages c repo env d m).1) env d m =
      ((updatePackages c repo env d m).1, [Effect.logMsg noChangesMsg], Except.ok none) := by
  rw [updatePackages_fst]
  by_cases h0 : packagesToUpdate c repo = []
  · rw [if_pos h0]
    exact updatePackages_no_changes c repo env d m h0
  · rw [if_neg h0]
    exact updatePackages_no_changes c _ env d m
      (packagesToUpdate_after_empty c repo d hFloor hWF)

set_option maxRecDepth 8000 in
/-- Counterexample to C3 as stated: with `releaseType = latest`,
`minimumVersionBump = minor` and `@wordpress/data` a production dependency,
the second run does not report "no changes detected" and duplicates the
`## 1.3.0 (2021-05-01)` heading — the production floor re-bumps the package
from its `1.3.0-prerelease` manifest back to `1.3.0`. -/
theorem C3_counterexample :
    (Effect.logMsg noChangesMsg ∉
      (updatePackages cfgLatestMinor
        ((updatePackages cfgLatestMinor repoData envT "2021-05-01" "Aborting!").1)
        envT "2021-05-01" "Aborting!").2.1) ∧
    ((updatePackages cfgLatestMinor
        ((updatePackages cfgLatestMinor repoData envT "2021-05-01" "Aborting!").1)
        envT "2021-05-01" "Aborting!").1.packages.map fun p =>
      countSubstr p.changelog "## 1.3.0 (2021-05-01)") = [2] := by
  exact ⟨by decide, by decide⟩

/-- Witness for C3 (amended): with minimum bump `patch` the second run over
the sample repository is a clean no-op. -/
theorem C3_witness :
    updatePackages { cfgLatestMinor with minimumVersionBump := .patch }
        ((updatePackages { cfgLatestMinor with minimumVersionBump := .patch }
          repoData envT "2021-05-01" "Aborting!").1) envT "2021-05-01" "Aborting!" =
      ((updatePackages { cfgLatestMinor with minimumVersionBump := .patch }
          repoData envT "2021-05-01" "Aborting!").1,
        [Effect.logMsg noChangesMsg], Except.ok none) :=
  C3_rerun_no_changes { cfgLatestMinor with minimumVersionBump := .patch } repoData envT
    "2021-05-01" "Aborting!" (Or.inl rfl) (by decide)

/-! ## Newline-freeness of rendered versions -/

/-- Digit characters are never newlines. -/
theorem digitChar_ne_newline (n : Nat) : Nat.digitChar n ≠ '\n' := by
  match n with
  | 0 | 1 | 2 | 3 | 4 | 5 | 6 | 7 | 8 | 9 | 10 | 11 | 12 | 13 | 14 | 15 => decide
  | (k + 16) =>
      have hne : ∀ j : Nat, j < 16 → ¬ (k + 16 = j) := fun j hj => by omega
      unfold Nat.digitChar
      rw [if_neg (hne 0 (by norm_num)), if_neg (hne 1 (by norm_num)),
        if_neg (hne 2 (by norm_num)), if_neg (hne 3 (by norm_num)),
        if_neg (hne 4 (by norm_num)), if_neg (hne 5 (by norm_num)),
        if_neg (hne 6 (by norm_num)), if_neg (hne 7 (by norm_num)),
        if_neg (hne 8 (by norm_num)), if_neg (hne 9 (by norm_num)),
        if_neg (hne 10 (by norm_num)), if_neg (hne 11 (by norm_num)),
        if_neg (hne 12 (by norm_num)), if_neg (hne 13 (by norm_num)),
        if_neg (hne 14 (by norm_num)), if_neg (hne 15 (by norm_num))]
      decide

/-- `Nat.toDigitsCore` only ever emits digit characters (plus what was in the
accumulator). -/
theorem toDigitsCore_ne_newline (b : Nat) :
    ∀ (fuel n : Nat) (acc : List Char), (∀ c ∈ acc, c ≠ '\n') →
      ∀ c ∈ Nat.toDigitsCore b fuel n acc, c ≠ '\n' := by
  intro fuel
  induction fuel with
  | zero =>
      intro n acc h c hc
      simpa [Nat.toDigitsCore] using h c (by simpa [Nat.toDigitsCore] using hc)
  | succ fuel ih =>
      intro n acc h c hc
      unfold Nat.toDigitsCore at hc
      dsimp only at hc
      split at hc
      · rcases List.mem_cons.mp hc with rfl | hc'
        · exact digitChar_ne_newline _
        · exact h c hc'
      · refine ih _ _ ?_ c hc
        intro c' hc'
        rcases List.mem_cons.mp hc' with rfl | h'
        · exact digitChar_ne_newline _
        · exact h c' h'

/-- The decimal representation of a natural number contains no newline. -/
theorem repr_ne_newline (n : Nat) : '\n' ∉ (Nat.repr n).data := by
  intro h
  exact toDigitsCore_ne_newline 10 (n + 1) n [] (by simp) '\n' h rfl

/-- A rendered version without prerelease tag contains no newline. -/
theorem render_ne_newline (v : Version) (h : v.prerelease = []) :
    '\n' ∉ (v.render).data := by
  unfold Version.render
  rw [h]
  simp [String.data_append, repr_ne_newline]

/-- The heading version string contains no newline. -/
theorem headingVersion_ne_newline (rt : ReleaseType) (nv : Version)
    (h : nv.prerelease = []) : '\n' ∉ (headingVersion rt nv).data := by
  unfold headingVersion
  split
  · simp [String.data_append, render_ne_newline nv h]
  · exact render_ne_newline nv h

/-- `semver.inc` always clears the prerelease tag. -/
theorem semverInc_prerelease (v : Version) (b : SemVer) :
    (semverInc v b).prerelease = [] := by
  cases b <;> rfl

/-- Distinct package names give distinct changelog paths. -/
theorem changelogPathOf_inj (dir a b : String)
    (h : changelogPathOf dir a = changelogPathOf dir b) : a = b := by
  unfold changelogPathOf at h
  have hd := congrArg String.data h
  simp only [String.data_append] at hd
  have h1 := List.append_cancel_right hd
  have h2 := List.append_cancel_left h1
  cases a
  cases b
  exact congrArg String.mk h2

/-- With distinct package names, the update loop's path lookup finds exactly
the record of the package that owns the path. -/
theorem find?_packagesToUpdate (c : WPPackagesConfig) (repo : RepoState)
    (hNodup : (repo.packages.map PackageOnDisk.name).Nodup) (p : PackageOnDisk)
    (hp : p ∈ repo.packages) (hpub : p.isPrivate = false)
    (hsome : (processPackage c.gitWorkingDirectoryPath c.minimumVersionBump c.releaseType
      repo.dependencies p).nextVersion.isSome = true) :
    (packagesToUpdate c repo).find?
        (fun r => r.changelogPath = changelogPathOf c.gitWorkingDirectoryPath p.name) =
      some (processPackage c.gitWorkingDirectoryPath c.minimumVersionBump c.releaseType
        repo.dependencies p) := by
  unfold packagesToUpdate processedPackages
  revert hNodup hp
  generalize repo.packages = l
  induction l with
  | nil =>
      intro _ hp
      exact absurd hp (List.not_mem_nil p)
  | cons q l ih =>
      intro hnd hp
      simp only [List.map_cons, List.nodup_cons] at hnd
      obtain ⟨hnd1, hnd2⟩ := hnd
      rcases List.mem_cons.mp hp with rfl | hpl
      · rw [show (p :: l).filter (fun q => !q.isPrivate) =
            p :: l.filter (fun q => !q.isPrivate) from by simp [hpub]]
        simp only [List.map_cons]
        rw [show (processPackage c.gitWorkingDirectoryPath c.minimumVersionBump c.releaseType
              repo.dependencies p ::
              (l.filter (fun q => !q.isPrivate)).map (processPackage c.gitWorkingDirectoryPath
                c.minimumVersionBump c.releaseType repo.dependencies)).filter
              (fun r => r.nextVersion.isSome) =
            processPackage c.gitWorkingDirectoryPath c.minimumVersionBump c.releaseType
              repo.dependencies p ::
              ((l.filter (fun q => !q.isPrivate)).map (processPackage c.gitWorkingDirectoryPath
                c.minimumVersionBump c.releaseType repo.dependencies)).filter
              (fun r => r.nextVersion.isSome) from by simp [hsome]]
        rw [List.find?_cons]
        simp [processPackage]
      · have hqname : q.name ≠ p.name := by
          intro he
          exact hnd1 (he ▸ List.mem_map_of_mem _ hpl)
        have hih := ih hnd2 hpl
        by_cases hqpriv : q.isPrivate
        · rw [show (q :: l).filter (fun q => !q.isPrivate) =
              l.filter (fun q => !q.isPrivate) from by simp [hqpriv]]
          exact hih
        · rw [show (q :: l).filter (fun q => !q.isPrivate) =
              q :: l.filter (fun q => !q.isPrivate) from by
                simp [List.filter_cons, hqpriv]]
          simp only [List.map_cons]
          have hpred : ¬ ((processPackage c.gitWorkingDirectoryPath c.minimumVersionBump
              c.releaseType repo.dependencies q).changelogPath =
              changelogPathOf c.gitWorkingDirectoryPath p.name) := by
            intro he
            exact hqname (changelogPathOf_inj _ _ _ he)
          by_cases hqs : (processPackage c.gitWorkingDirectoryPath c.minimumVersionBump
              c.releaseType repo.dependencies q).nextVersion.isSome
          · rw [show (processPackage c.gitWorkingDirectoryPath c.minimumVersionBump
                  c.releaseType repo.dependencies q ::
                  (l.filter (fun q => !q.isPrivate)).map (processPackage
                    c.gitWorkingDirectoryPath c.minimumVersionBump c.releaseType
                    repo.dependencies)).filter (fun r => r.nextVersion.isSome) =
                processPackage c.gitWorkingDirectoryPath c.minimumVersionBump c.releaseType
                  repo.dependencies q ::
                  ((l.filter (fun q => !q.isPrivate)).map (processPackage
                    c.gitWorkingDirectoryPath c.minimumVersionBump c.releaseType
                    repo.dependencies)).filter (fun r => r.nextVersion.isSome) from by
                      simp [hqs]]
            rw [List.find?_cons]
            rw [decide_eq_false hpred]
            exact hih
          · rw [show (processPackage c.gitWorkingDirectoryPath c.minimumVersionBump
                  c.releaseType repo.dependencies q ::
                  (l.filter (fun q => !q.isPrivate)).map (processPackage
                    c.gitWorkingDirectoryPath c.minimumVersionBump c.releaseType
                    repo.dependencies)).filter (fun r => r.nextVersion.isSome) =
                ((l.filter (fun q => !q.isPrivate)).map (processPackage
                  c.gitWorkingDirectoryPath c.minimumVersionBump c.releaseType
                  repo.dependencies)).filter (fun r => r.nextVersion.isSome) from by
                    simp [hqs]]
            exact hih

/-- C5: for every package `updatePackages` rewrites, the changelog keeps its
`## Unreleased` marker with a fresh empty section directly below it, followed
by the new heading `## <version> (<date>)` carrying the run's date, where the
version string is the computed next version with a `-next.0` suffix for a
`next` release and the plain version otherwise; all other lines are
untouched. -/
theorem C5_changelog_heading (c : WPPackagesConfig) (repo : RepoState) (env : Env)
    (d m : String) (p : PackageOnDisk) (nv : Version)
    (hNodup : (repo.packages.map PackageOnDisk.name).Nodup)
    (hp : p ∈ repo.packages) (hpub : p.isPrivate = false)
    (hnv : (processPackage c.gitWorkingDirectoryPath c.minimumVersionBump c.releaseType
      repo.dependencies p).nextVersion = some nv)
    (hG : goodChangelog p.changelog = true)
    (hd : '\n' ∉ d.data) :
    ∃ p' ∈ (updatePackages c repo env d m).1.packages, p'.name = p.name ∧
      ∃ pre rest,
        splitOnChar '\n' p.changelog.data = pre ++ [marker] ++ rest ∧
        splitOnChar '\n' p'.changelog.data =
          (pre ++ [marker, [],
            ("## " ++ (if c.releaseType = ReleaseType.next then nv.render ++ "-next.0"
              else nv.render) ++ " (" ++ d ++ ")").data]) ++ rest := by
  have hsome : (processPackage c.gitWorkingDirectoryPath c.minimumVersionBump c.releaseType
      repo.dependencies p).nextVersion.isSome = true := by
    rw [hnv]
    rfl
  have hprer : nv.prerelease = [] := by
    have hthis := hnv
    unfold processPackage at hthis
    dsimp only at hthis
    rw [Option.map_eq_some'] at hthis
    obtain ⟨b, -, hb⟩ := hthis
    rw [← hb]
    exact semverInc_prerelease _ _
  have hins : '\n' ∉ insChars c.releaseType d nv := by
    intro hmem
    unfold insChars at hmem
    simp only [String.data_append, List.mem_append] at hmem
    rcases hmem with (((h1 | h1) | h1) | h1) | h1
    · exact absurd h1 (by decide)
    · exact headingVersion_ne_newline c.releaseType nv hprer h1
    · exact absurd h1 (by decide)
    · exact hd h1
    · exact absurd h1 (by decide)
  have hne : packagesToUpdate c repo ≠ [] := by
    intro h0
    have hrec : processPackage c.gitWorkingDirectoryPath c.minimumVersionBump c.releaseType
        repo.dependencies p ∈ packagesToUpdate c repo := by
      unfold packagesToUpdate processedPackages
      rw [List.mem_filter]
      exact ⟨List.mem_map_of_mem _ (List.mem_filter.mpr ⟨hp, by simp [hpub]⟩), hsome⟩
    rw [h0] at hrec
    exact absurd hrec (List.not_mem_nil _)
  have hfind := find?_packagesToUpdate c repo hNodup p hp hpub hsome
  obtain ⟨pre, rest, hsplit, hpre⟩ := good_decompose p.changelog hG
  have hrestlines : ∀ l ∈ rest, '\n' ∉ l := fun l hl =>
    sep_not_mem_split '\n' p.changelog.data l
      (by rw [hsplit]; exact List.mem_append_right _ hl)
  refine ⟨{ p with
      changelog := updatedChangelog c.releaseType d nv p.changelog
      version := { nv with prerelease := ["prerelease"] } }, ?_, rfl,
    pre, rest, hsplit, ?_⟩
  · rw [updatePackages_fst, if_neg hne]
    show _ ∈ (repoAfterUpdate c repo d).packages
    unfold repoAfterUpdate applyUpdates
    dsimp only
    refine List.mem_map.mpr ⟨p, hp, ?_⟩
    dsimp only
    rw [hfind]
    dsimp only
    rw [hnv]
  · show splitOnChar '\n' (updatedChangelog c.releaseType d nv p.changelog).data = _
    rw [updated_split c.releaseType d nv p.changelog pre rest hsplit hpre]
    rcases rest with _ | ⟨r, rs⟩
    · rw [show sepRest ([] : List (List Char)) = [] from rfl, List.append_nil,
        split_nosep '\n' _ hins]
      simp [insChars, headingVersion]
    · rw [show sepRest (r :: rs) = '\n' :: joinLines (r :: rs) from rfl]
      rw [split_nosep_append '\n' _ _ hins]
      rw [split_joinLines (r :: rs) (by simp) hrestlines]
      simp [insChars, headingVersion]

/-- Witness for C5: in the concrete stable run over `repoData`, the rewritten
changelog of `data` keeps the fresh empty Unreleased section and gains the
heading `## 1.3.0 (2021-05-01)`. -/
theorem C5_witness :
    ∃ p' ∈ (updatePackages cfgLatestMinor repoData envT "2021-05-01" "Aborting!").1.packages,
      p'.name = pkgData.name ∧
      ∃ pre rest,
        splitOnChar '\n' pkgData.changelog.data =
          pre ++ [marker] ++ rest ∧
        splitOnChar '\n' p'.changelog.data =
          (pre ++ [marker, [],
            ("## " ++ (if cfgLatestMinor.releaseType = ReleaseType.next then
                (⟨1, 3, 0, []⟩ : Version).render ++ "-next.0"
              else (⟨1, 3, 0, []⟩ : Version).render) ++ " (" ++ "2021-05-01" ++ ")").data]) ++
            rest :=
  C5_changelog_heading cfgLatestMinor repoData envT "2021-05-01" "Aborting!"
    pkgData ⟨1, 3, 0, []⟩
    (by decide) (by decide) rfl (by decide) (by decide) (by decide)
